import Mathlib

/-!
Verification development for the citrine repository: a shallow embedding of
its lexer (src/lexer/mod.rs), CST parser (src/parser/mod.rs), reader and
evaluator (src/reader/mod.rs, src/reader/value.rs) and builtin environment
(src/builtins.rs, src/lib.rs), together with theorems settling the claims
of the specification.

Modelling conventions:
* Source text is a `List Char`; byte offsets are computed with `Char.utf8Size`,
  matching Rust's byte positions over a UTF-8 `&str`.
* Rust `f64` is modelled by `ℚ` (exact arithmetic); no claim proved here
  depends on rounding, NaN or infinities.
* `Rc<RefCell<Environment>>` is modelled by an index into an explicit store
  of frames; mutation is explicit state passing.
* Loops and recursion that are not structurally decreasing are given explicit
  fuel; `none` means the computation did not finish within the fuel.
-/

namespace Citrine

abbrev Str := List Char

/-- Byte length of a string, as Rust's `str::len` counts it. -/
def utf8Len (s : Str) : Nat := (s.map Char.utf8Size).sum

/-- The backtick character (U+0060). -/
def backtickChar : Char := '\x60'

/-- The single-quote character (U+0027). -/
def squoteChar : Char := '\x27'

/-- The double-quote character (U+0022). -/
def dquoteChar : Char := '\x22'

/-- Rust's `char::is_whitespace` (the Unicode White_Space property). -/
def rustIsWhitespace (c : Char) : Bool :=
  c.toNat ∈ [0x9, 0xA, 0xB, 0xC, 0xD, 0x20, 0x85, 0xA0, 0x1680,
    0x2000, 0x2001, 0x2002, 0x2003, 0x2004, 0x2005, 0x2006, 0x2007,
    0x2008, 0x2009, 0x200A, 0x2028, 0x2029, 0x202F, 0x205F, 0x3000]

/-- Rust's `char::is_ascii_digit`. -/
def isAsciiDigit (c : Char) : Bool := '0' ≤ c && c ≤ '9'

/-- Rust's `char::is_ascii_hexdigit`. -/
def isAsciiHexdigit (c : Char) : Bool :=
  isAsciiDigit c || ('a' ≤ c && c ≤ 'f') || ('A' ≤ c && c ≤ 'F')

/-- `is_symbol_start` from src/lexer/mod.rs: characters that may start a symbol.
Only ASCII letters are accepted (the Rust match arms are `'a'..='z' | 'A'..='Z'`),
plus the listed punctuation. -/
def isSymbolStart (c : Char) : Bool :=
  ('a' ≤ c && c ≤ 'z') || ('A' ≤ c && c ≤ 'Z') ||
    c ∈ ['!', '?', '-', '+', '<', '>', '=', '$', '*', '%', '_', '/']

/-- `is_symbol_char` from src/lexer/mod.rs. -/
def isSymbolChar (c : Char) : Bool := isSymbolStart c || isAsciiDigit c

/-- `TokenKind` from src/lexer. The variants are the ones the lexer emits and
the parser and `token_to_syntax_kind` consume (`Tilde`/`TildeAt`/`Comma`);
the stale snapshot of token.rs additionally lists a `CommaAt` variant that no
other module mentions, which we omit. `Whitespace` is declared but the lexer
never emits it (whitespace is skipped before a token starts). -/
inductive TokenKind where
  | LeftParen | RightParen | LeftBracket | RightBracket | LeftBrace | RightBrace
  | String | Number | Character | Symbol | Keyword
  | Quote | Backtick | Tilde | TildeAt | Caret | Hash | HashLeftBrace | Comma
  | Whitespace | Comment
  | Error | Eof
  deriving DecidableEq, Repr

/-- `Token` from src/lexer/token.rs: kind, exact source slice and byte range. -/
structure Token where
  kind : TokenKind
  text : Str
  start : Nat
  stop : Nat
  deriving DecidableEq, Repr

/-- Lexer state: the unconsumed characters and the current byte position
(the `chars` iterator and `position` field of `Lexer`). -/
structure LexState where
  rest : Str
  pos : Nat
  deriving Repr

/-- The loop of `Lexer::skip_whitespace`. -/
def skipWhitespaceAux : Str → Nat → LexState
  | [], p => ⟨[], p⟩
  | c :: cs, p =>
      if rustIsWhitespace c then skipWhitespaceAux cs (p + c.utf8Size)
      else ⟨c :: cs, p⟩

/-- `Lexer::skip_whitespace`: drop leading whitespace, advancing the byte position. -/
def skipWhitespace (st : LexState) : LexState := skipWhitespaceAux st.rest st.pos

/-- `Lexer::lex_comment`: consume to end of line (the newline itself is not
consumed).  Returns (kind, consumed characters, remaining characters). -/
def lexComment : Str → TokenKind × Str × Str
  | [] => (.Comment, [], [])
  | c :: cs =>
      if c = '\n' then (.Comment, [], c :: cs)
      else
        let (k, con, r) := lexComment cs
        (k, c :: con, r)

/-- `Lexer::lex_string`: scan until an unescaped closing quote; the Boolean is
the `escaped` flag.  Unterminated strings yield `Error`. -/
def lexString : Bool → Str → TokenKind × Str × Str
  | _, [] => (.Error, [], [])
  | true, c :: cs =>
      let (k, con, r) := lexString false cs
      (k, c :: con, r)
  | false, c :: cs =>
      if c = '\\' then
        let (k, con, r) := lexString true cs
        (k, c :: con, r)
      else if c = dquoteChar then (.String, [c], cs)
      else
        let (k, con, r) := lexString false cs
        (k, c :: con, r)

/-- The `\uXXXX` loop inside `Lexer::lex_character`: consume up to `n` hex
digits; a missing or non-hex character aborts with `Error`. -/
def lexUnicodeEscape : Nat → Str → TokenKind × Str × Str
  | 0, cs => (.Character, [], cs)
  | _ + 1, [] => (.Error, [], [])
  | n + 1, c :: cs =>
      if isAsciiHexdigit c then
        let (k, con, r) := lexUnicodeEscape n cs
        (k, c :: con, r)
      else (.Error, [], c :: cs)

/-- One named-character arm of `Lexer::lex_character`: after bumping the first
letter `c`, the source tests `peek_is second && input[position..].starts_with name`
and, when that holds, bumps `extra` more characters.  (As in the source, the
test compares the characters after `c` against the full `name`, whose first
letter differs from `second`, so it can never succeed.) -/
def lexCharNamed (c : Char) (second : Char) (name : Str) (extra : Nat) (cs : Str) :
    TokenKind × Str × Str :=
  if cs.head? = some second && name.isPrefixOf cs then
    (.Character, c :: cs.take extra, cs.drop extra)
  else (.Character, [c], cs)

/-- `Lexer::lex_character` (the backslash has already been consumed). -/
def lexCharacter : Str → TokenKind × Str × Str
  | [] => (.Error, [], [])
  | c :: cs =>
      if c = 'n' then lexCharNamed c 'e' ("newline".toList) 6 cs
      else if c = 'r' then lexCharNamed c 'e' ("return".toList) 5 cs
      else if c = 's' then lexCharNamed c 'p' ("space".toList) 4 cs
      else if c = 't' then lexCharNamed c 'a' ("tab".toList) 2 cs
      else if c = 'f' then lexCharNamed c 'o' ("formfeed".toList) 7 cs
      else if c = 'b' then lexCharNamed c 'a' ("backspace".toList) 8 cs
      else if c = 'u' then
        let (k, con, r) := lexUnicodeEscape 4 cs
        (k, c :: con, r)
      else (.Character, [c], cs)

/-- Greedily take characters satisfying `p` (the `while peek { bump }` loops). -/
def takeWhileChars (p : Char → Bool) : Str → Str × Str
  | [] => ([], [])
  | c :: cs =>
      if p c then
        let (con, r) := takeWhileChars p cs
        (c :: con, r)
      else ([], c :: cs)

/-- `Lexer::lex_keyword` (the colon has already been consumed). -/
def lexKeyword (cs : Str) : TokenKind × Str × Str :=
  let (con, r) := takeWhileChars isSymbolChar cs
  (.Keyword, con, r)

/-- `Lexer::lex_symbol` (the first character has already been consumed). -/
def lexSymbol (cs : Str) : TokenKind × Str × Str :=
  let (con, r) := takeWhileChars isSymbolChar cs
  (.Symbol, con, r)

/-- `Lexer::lex_hex_number`: at least one hex digit is required. -/
def lexHexNumber (cs : Str) : TokenKind × Str × Str :=
  let (con, r) := takeWhileChars isAsciiHexdigit cs
  if con.isEmpty then (.Error, con, r) else (.Number, con, r)

/-- `Lexer::lex_binary_number`: at least one binary digit is required. -/
def lexBinaryNumber (cs : Str) : TokenKind × Str × Str :=
  let (con, r) := takeWhileChars (fun c => c = '0' || c = '1') cs
  if con.isEmpty then (.Error, con, r) else (.Number, con, r)

/-- Whether the next character (if any) is an ASCII digit — the
`self.peek().map_or(false, |c| c.is_ascii_digit())` test. -/
def peekIsDigit (cs : Str) : Bool := (cs.head?.map isAsciiDigit).getD false

mutual

/-- The main loop of `Lexer::lex_number`, with the `has_decimal` and
`has_exponent` flags. -/
def lexNumLoop : Bool → Bool → Str → TokenKind × Str × Str
  | _, _, [] => (.Number, [], [])
  | hasDec, hasExp, c :: cs =>
      if isAsciiDigit c then
        let (k, con, r) := lexNumLoop hasDec hasExp cs
        (k, c :: con, r)
      else if c = '.' && !hasDec && !hasExp then
        if peekIsDigit cs then
          let (k, con, r) := lexNumLoop true hasExp cs
          (k, c :: con, r)
        else (.Error, [c], cs)
      else if (c = 'e' || c = 'E') && !hasExp then
        let (k, con, r) := lexExpSign hasDec cs
        (k, c :: con, r)
      else if c = 'N' || c = 'n' || c = 'L' || c = 'l' then (.Number, [c], cs)
      else if c = '/' && !hasDec && !hasExp then
        if peekIsDigit cs then
          let (den, r) := takeWhileChars isAsciiDigit cs
          (.Number, c :: den, r)
        else (.Error, [c], cs)
      else (.Number, [], c :: cs)
termination_by structural _ _ cs => cs

/-- The optional-sign-and-digit check after an exponent marker inside
`Lexer::lex_number` (the `e`/`E` has just been consumed).  In the source the
digit case re-enters the number loop with the digit still unconsumed; here
that one loop step is unfolded (the digit branch of the loop applied to the
digit at hand), which is the same function and lets the recursion be
structural. -/
def lexExpSign : Bool → Str → TokenKind × Str × Str
  | _, [] => (.Error, [], [])
  | hasDec, s :: cs' =>
      if s = '+' || s = '-' then
        if peekIsDigit cs' then
          let (k, con, r) := lexNumLoop hasDec true cs'
          (k, s :: con, r)
        else (.Error, [s], cs')
      else if isAsciiDigit s then
        let (k, con, r) := lexNumLoop hasDec true cs'
        (k, s :: con, r)
      else (.Error, [], s :: cs')
termination_by structural _ cs => cs

end

/-- `Lexer::lex_number` (the first character, always a digit given the dispatch
order in `next_token`, has already been consumed). -/
def lexNumber (first : Char) (cs : Str) : TokenKind × Str × Str :=
  if first = '0' then
    match cs with
    | x :: cs' =>
        if x = 'x' || x = 'X' then
          let (k, con, r) := lexHexNumber cs'
          (k, x :: con, r)
        else if x = 'b' || x = 'B' then
          let (k, con, r) := lexBinaryNumber cs'
          (k, x :: con, r)
        else lexNumLoop false false cs
    | [] => lexNumLoop false false []
  else lexNumLoop false false cs

/-- `Lexer::at_start_of_list`: the source stub always returns `true`. -/
def atStartOfList : Bool := true

/-- The character dispatch of `Lexer::next_token` (the arms of the
`match self.bump()` on `Some(c)`), in source order.  Returns the token kind,
the characters consumed (including `c`) and the remaining characters. -/
def lexDispatch (c : Char) (cs : Str) : TokenKind × Str × Str :=
  if c = '(' then (.LeftParen, [c], cs)
        else if c = ')' then (.RightParen, [c], cs)
        else if c = '[' then (.LeftBracket, [c], cs)
        else if c = ']' then (.RightBracket, [c], cs)
        else if c = '{' then (.LeftBrace, [c], cs)
        else if c = '}' then (.RightBrace, [c], cs)
        else if c = squoteChar then (.Quote, [c], cs)
        else if c = backtickChar then (.Backtick, [c], cs)
        else if c = ',' then
          if cs.head? = some '@' && atStartOfList then (.TildeAt, [c, '@'], cs.tail)
          else (.Comma, [c], cs)
        else if c = '~' then
          if cs.head? = some '@' then (.TildeAt, [c, '@'], cs.tail)
          else (.Tilde, [c], cs)
        else if c = '^' then (.Caret, [c], cs)
        else if c = '#' then
          if cs.head? = some '{' then (.HashLeftBrace, [c, '{'], cs.tail)
          else if cs.head? = some '_' then (.Hash, [c, '_'], cs.tail)
          else (.Hash, [c], cs)
        else if c = ';' then
          let (k, con, r) := lexComment cs
          (k, c :: con, r)
        else if c = dquoteChar then
          let (k, con, r) := lexString false cs
          (k, c :: con, r)
        else if c = '\\' then
          let (k, con, r) := lexCharacter cs
          (k, c :: con, r)
        else if c = ':' then
          let (k, con, r) := lexKeyword cs
          (k, c :: con, r)
        else if isSymbolStart c then
          let (k, con, r) := lexSymbol cs
          (k, c :: con, r)
  else if isAsciiDigit c || (c = '-' && peekIsDigit cs) then
    let (k, con, r) := lexNumber c cs
    (k, c :: con, r)
  else (.Error, [c], cs)

/-- `Lexer::next_token`: skip whitespace, then dispatch on the first character.
The token text is exactly the characters consumed after the whitespace skip
(in the source, `input[start..end]`), and `start`/`stop` are byte offsets. -/
def nextToken (st : LexState) : Token × LexState :=
  let st1 := skipWhitespace st
  let start := st1.pos
  match st1.rest with
  | [] => (⟨.Eof, [], start, start⟩, st1)
  | c :: cs =>
      let (kind, text, r) := lexDispatch c cs
      (⟨kind, text, start, start + utf8Len text⟩, ⟨r, start + utf8Len text⟩)

/-- `Lexer::tokenize`, with fuel bounding the number of tokens produced. -/
def tokenizeF : Nat → LexState → List Token
  | 0, _ => []
  | fuel + 1, st =>
      let (t, st') := nextToken st
      if t.kind = .Eof then [t] else t :: tokenizeF fuel st'

/-- `tokenize(input)` from src/lib.rs.  Every token other than `Eof` consumes at
least one character, so `length + 1` fuel always suffices
(`tokenizeF_adequate`). -/
def tokenize (s : Str) : List Token :=
  tokenizeF (s.length + 1) ⟨s, 0⟩

/-- Concatenation of the texts of a token list. -/
def tokensText (ts : List Token) : Str := (ts.map Token.text).flatten

/-! ### Consumed/remaining splitting lemmas for the lexer helpers -/

theorem skipWhitespaceAux_split (cs : Str) (p : Nat) :
    ∃ w : Str, (∀ c ∈ w, rustIsWhitespace c = true) ∧
      cs = w ++ (skipWhitespaceAux cs p).rest := by
  induction cs generalizing p with
  | nil => exact ⟨[], by simp, by simp [skipWhitespaceAux]⟩
  | cons c cs ih =>
      by_cases h : rustIsWhitespace c
      · obtain ⟨w, hw, hc⟩ := ih (p + c.utf8Size)
        refine ⟨c :: w, ?_, ?_⟩
        · intro x hx
          rcases List.mem_cons.mp hx with rfl | hx
          · exact h
          · exact hw x hx
        · simpa [skipWhitespaceAux, h] using congrArg (c :: ·) hc
      · exact ⟨[], by simp, by simp [skipWhitespaceAux, h]⟩

theorem lexComment_split (cs : Str) :
    (lexComment cs).2.1 ++ (lexComment cs).2.2 = cs := by
  induction cs with
  | nil => simp [lexComment]
  | cons c cs ih =>
      by_cases h : c = '\n'
      · simp [lexComment, h]
      · simpa [lexComment, h] using congrArg (c :: ·) ih

theorem lexString_split (b : Bool) (cs : Str) :
    (lexString b cs).2.1 ++ (lexString b cs).2.2 = cs := by
  induction cs generalizing b with
  | nil => cases b <;> simp [lexString]
  | cons c cs ih =>
      cases b with
      | true => simpa [lexString] using congrArg (c :: ·) (ih false)
      | false =>
          by_cases h1 : c = '\\'
          · simpa [lexString, h1] using congrArg (c :: ·) (ih true)
          · by_cases h2 : c = dquoteChar
            · have hq : (dquoteChar = '\\') = False := by decide
              simp [lexString, h1, h2, hq]
            · simpa [lexString, h1, h2] using congrArg (c :: ·) (ih false)

theorem lexUnicodeEscape_split (n : Nat) (cs : Str) :
    (lexUnicodeEscape n cs).2.1 ++ (lexUnicodeEscape n cs).2.2 = cs := by
  induction n generalizing cs with
  | zero => simp [lexUnicodeEscape]
  | succ n ih =>
      cases cs with
      | nil => simp [lexUnicodeEscape]
      | cons c cs =>
          by_cases h : isAsciiHexdigit c
          · simpa [lexUnicodeEscape, h] using congrArg (c :: ·) (ih cs)
          · simp [lexUnicodeEscape, h]

theorem lexCharNamed_split (c second : Char) (name : Str) (extra : Nat) (cs : Str) :
    (lexCharNamed c second name extra cs).2.1 ++ (lexCharNamed c second name extra cs).2.2
      = c :: cs := by
  by_cases h : cs.head? = some second && name.isPrefixOf cs
  · simp [lexCharNamed, h, List.take_append_drop]
  · simp [lexCharNamed, h]

theorem lexCharacter_split (cs : Str) :
    (lexCharacter cs).2.1 ++ (lexCharacter cs).2.2 = cs := by
  cases cs with
  | nil => simp [lexCharacter]
  | cons c cs =>
      by_cases h1 : c = 'n'
      · simpa [lexCharacter, h1] using lexCharNamed_split 'n' 'e' ("newline".toList) 6 cs
      by_cases h2 : c = 'r'
      · simpa [lexCharacter, h1, h2] using lexCharNamed_split 'r' 'e' ("return".toList) 5 cs
      by_cases h3 : c = 's'
      · simpa [lexCharacter, h1, h2, h3] using lexCharNamed_split 's' 'p' ("space".toList) 4 cs
      by_cases h4 : c = 't'
      · simpa [lexCharacter, h1, h2, h3, h4] using
          lexCharNamed_split 't' 'a' ("tab".toList) 2 cs
      by_cases h5 : c = 'f'
      · simpa [lexCharacter, h1, h2, h3, h4, h5] using
          lexCharNamed_split 'f' 'o' ("formfeed".toList) 7 cs
      by_cases h6 : c = 'b'
      · simpa [lexCharacter, h1, h2, h3, h4, h5, h6] using
          lexCharNamed_split 'b' 'a' ("backspace".toList) 8 cs
      by_cases h7 : c = 'u'
      · simpa [lexCharacter, h1, h2, h3, h4, h5, h6, h7] using
          congrArg (c :: ·) (lexUnicodeEscape_split 4 cs)
      · simp [lexCharacter, h1, h2, h3, h4, h5, h6, h7]

theorem takeWhileChars_split (p : Char → Bool) (cs : Str) :
    (takeWhileChars p cs).1 ++ (takeWhileChars p cs).2 = cs := by
  induction cs with
  | nil => simp [takeWhileChars]
  | cons c cs ih =>
      by_cases h : p c
      · simpa [takeWhileChars, h] using congrArg (c :: ·) ih
      · simp [takeWhileChars, h]

theorem lexKeyword_split (cs : Str) :
    (lexKeyword cs).2.1 ++ (lexKeyword cs).2.2 = cs := by
  simpa [lexKeyword] using takeWhileChars_split isSymbolChar cs

theorem lexSymbol_split (cs : Str) :
    (lexSymbol cs).2.1 ++ (lexSymbol cs).2.2 = cs := by
  simpa [lexSymbol] using takeWhileChars_split isSymbolChar cs

theorem lexHexNumber_split (cs : Str) :
    (lexHexNumber cs).2.1 ++ (lexHexNumber cs).2.2 = cs := by
  have := takeWhileChars_split isAsciiHexdigit cs
  by_cases h : (takeWhileChars isAsciiHexdigit cs).1.isEmpty <;>
    simpa [lexHexNumber, h] using this

theorem lexBinaryNumber_split (cs : Str) :
    (lexBinaryNumber cs).2.1 ++ (lexBinaryNumber cs).2.2 = cs := by
  have := takeWhileChars_split (fun c => c = '0' || c = '1') cs
  by_cases h : (takeWhileChars (fun c => c = '0' || c = '1') cs).1.isEmpty <;>
    simpa [lexBinaryNumber, h] using this

theorem lexNumLoop_spec : ∀ (hasDec hasExp : Bool) (cs : Str),
    (lexNumLoop hasDec hasExp cs).2.1 ++ (lexNumLoop hasDec hasExp cs).2.2 = cs ∧
      (lexNumLoop hasDec hasExp cs).1 ≠ .Eof := by
  suffices h : ∀ (cs : Str),
      (∀ hasDec hasExp,
        (lexNumLoop hasDec hasExp cs).2.1 ++ (lexNumLoop hasDec hasExp cs).2.2 = cs ∧
          (lexNumLoop hasDec hasExp cs).1 ≠ .Eof) ∧
      (∀ hasDec,
        (lexExpSign hasDec cs).2.1 ++ (lexExpSign hasDec cs).2.2 = cs ∧
          (lexExpSign hasDec cs).1 ≠ .Eof) by
    intro hasDec hasExp cs
    exact (h cs).1 hasDec hasExp
  intro cs
  induction cs with
  | nil =>
      constructor
      · intro hasDec hasExp
        simp [lexNumLoop]
      · intro hasDec
        simp [lexExpSign]
  | cons c cs ih =>
      obtain ⟨ihN, ihE⟩ := ih
      constructor
      · intro hasDec hasExp
        simp only [lexNumLoop]
        split_ifs with h1 h2 h3 h4 h5 h6 h7
        · obtain ⟨hs, hn⟩ := ihN hasDec hasExp
          rcases he : lexNumLoop hasDec hasExp cs with ⟨k, con, r⟩
          rw [he] at hs hn
          exact ⟨by simp [hs], hn⟩
        · obtain ⟨hs, hn⟩ := ihN true hasExp
          rcases he : lexNumLoop true hasExp cs with ⟨k, con, r⟩
          rw [he] at hs hn
          exact ⟨by simp [hs], hn⟩
        · simp
        · obtain ⟨hs, hn⟩ := ihE hasDec
          rcases he : lexExpSign hasDec cs with ⟨k, con, r⟩
          rw [he] at hs hn
          exact ⟨by simp [hs], hn⟩
        · simp
        · have hsp := takeWhileChars_split isAsciiDigit cs
          rcases ht : takeWhileChars isAsciiDigit cs with ⟨den, r⟩
          rw [ht] at hsp
          exact ⟨by simp [hsp], by simp⟩
        · simp
        · simp
      · intro hasDec
        simp only [lexExpSign]
        split_ifs with h1 h2 h3
        · obtain ⟨hs, hn⟩ := ihN hasDec true
          rcases he : lexNumLoop hasDec true cs with ⟨k, con, r⟩
          rw [he] at hs hn
          exact ⟨by simp [hs], hn⟩
        · simp
        · obtain ⟨hs, hn⟩ := ihN hasDec true
          rcases he : lexNumLoop hasDec true cs with ⟨k, con, r⟩
          rw [he] at hs hn
          exact ⟨by simp [hs], hn⟩
        · simp

/-! ### Kind sanity lemmas: no helper ever returns `Eof` -/

theorem lexComment_ne_eof (cs : Str) : (lexComment cs).1 ≠ .Eof := by
  induction cs with
  | nil => simp [lexComment]
  | cons c cs ih => by_cases h : c = '\n' <;> simp_all [lexComment, h]

theorem lexString_ne_eof (b : Bool) (cs : Str) : (lexString b cs).1 ≠ .Eof := by
  induction cs generalizing b with
  | nil => cases b <;> simp [lexString]
  | cons c cs ih =>
      cases b with
      | true => simpa [lexString] using ih false
      | false =>
          by_cases h1 : c = '\\'
          · simpa [lexString, h1] using ih true
          · by_cases h2 : c = dquoteChar <;> simp_all [lexString, h1, h2]

theorem lexUnicodeEscape_ne_eof (n : Nat) (cs : Str) : (lexUnicodeEscape n cs).1 ≠ .Eof := by
  induction n generalizing cs with
  | zero => simp [lexUnicodeEscape]
  | succ n ih =>
      cases cs with
      | nil => simp [lexUnicodeEscape]
      | cons c cs => by_cases h : isAsciiHexdigit c <;> simp_all [lexUnicodeEscape, h]

theorem lexCharNamed_kind (c second : Char) (name : Str) (extra : Nat) (cs : Str) :
    (lexCharNamed c second name extra cs).1 = .Character := by
  by_cases h : cs.head? = some second && name.isPrefixOf cs <;> simp [lexCharNamed, h]

theorem lexCharacter_ne_eof (cs : Str) : (lexCharacter cs).1 ≠ .Eof := by
  cases cs with
  | nil => simp [lexCharacter]
  | cons c cs =>
      by_cases h1 : c = 'n'
      · simp [lexCharacter, h1, lexCharNamed_kind]
      by_cases h2 : c = 'r'
      · simp [lexCharacter, h1, h2, lexCharNamed_kind]
      by_cases h3 : c = 's'
      · simp [lexCharacter, h1, h2, h3, lexCharNamed_kind]
      by_cases h4 : c = 't'
      · simp [lexCharacter, h1, h2, h3, h4, lexCharNamed_kind]
      by_cases h5 : c = 'f'
      · simp [lexCharacter, h1, h2, h3, h4, h5, lexCharNamed_kind]
      by_cases h6 : c = 'b'
      · simp [lexCharacter, h1, h2, h3, h4, h5, h6, lexCharNamed_kind]
      by_cases h7 : c = 'u'
      · simpa [lexCharacter, h1, h2, h3, h4, h5, h6, h7] using lexUnicodeEscape_ne_eof 4 cs
      · simp [lexCharacter, h1, h2, h3, h4, h5, h6, h7]

theorem lexHexNumber_ne_eof (cs : Str) : (lexHexNumber cs).1 ≠ .Eof := by
  by_cases h : (takeWhileChars isAsciiHexdigit cs).1.isEmpty <;> simp [lexHexNumber, h]

theorem lexBinaryNumber_ne_eof (cs : Str) : (lexBinaryNumber cs).1 ≠ .Eof := by
  by_cases h : (takeWhileChars (fun c => c = '0' || c = '1') cs).1.isEmpty <;>
    simp [lexBinaryNumber, h]

theorem lexNumber_spec (first : Char) (cs : Str) :
    (lexNumber first cs).2.1 ++ (lexNumber first cs).2.2 = cs ∧
      (lexNumber first cs).1 ≠ .Eof := by
  by_cases h0 : first = '0'
  · cases cs with
    | nil => simpa [lexNumber, h0] using lexNumLoop_spec false false []
    | cons x cs' =>
        by_cases hx : x = 'x' ∨ x = 'X'
        · have h1 := lexHexNumber_split cs'
          have h2 := lexHexNumber_ne_eof cs'
          rcases hx with hx | hx <;>
            simpa [lexNumber, h0, hx] using ⟨h1, h2⟩
        · by_cases hb : x = 'b' ∨ x = 'B'
          · have h1 := lexBinaryNumber_split cs'
            have h2 := lexBinaryNumber_ne_eof cs'
            rcases hb with hb | hb <;>
              simpa [lexNumber, h0, hb, not_or.mp hx] using ⟨h1, h2⟩
          · have hx' := not_or.mp hx
            have hb' := not_or.mp hb
            simpa [lexNumber, h0, hx'.1, hx'.2, hb'.1, hb'.2] using
              lexNumLoop_spec false false (x :: cs')
  · simpa [lexNumber, h0] using lexNumLoop_spec false false cs

/-- The character dispatch always consumes the dispatched character: the
consumed text is non-empty, prefixed to the remaining characters it restores
the input, and the kind is never `Eof`. -/
theorem lexDispatch_spec (c : Char) (cs : Str) :
    (lexDispatch c cs).2.1 ++ (lexDispatch c cs).2.2 = c :: cs ∧
      (lexDispatch c cs).2.1 ≠ [] ∧ (lexDispatch c cs).1 ≠ .Eof := by
  by_cases h1 : c = '('
  · simp [lexDispatch, squoteChar, backtickChar, dquoteChar, *]
  by_cases h2 : c = ')'
  · simp [lexDispatch, squoteChar, backtickChar, dquoteChar, *]
  by_cases h3 : c = '['
  · simp [lexDispatch, squoteChar, backtickChar, dquoteChar, *]
  by_cases h4 : c = ']'
  · simp [lexDispatch, squoteChar, backtickChar, dquoteChar, *]
  by_cases h5 : c = '{'
  · simp [lexDispatch, squoteChar, backtickChar, dquoteChar, *]
  by_cases h6 : c = '}'
  · simp [lexDispatch, squoteChar, backtickChar, dquoteChar, *]
  by_cases h7 : c = '\x27'
  · simp [lexDispatch, squoteChar, backtickChar, dquoteChar, *]
  by_cases h8 : c = '\x60'
  · simp [lexDispatch, squoteChar, backtickChar, dquoteChar, *]
  by_cases h9 : c = ','
  · cases cs with
    | nil => simp [lexDispatch, squoteChar, backtickChar, dquoteChar, atStartOfList, *]
    | cons d cs' => by_cases hd : d = '@' <;> simp [lexDispatch, squoteChar, backtickChar, dquoteChar, atStartOfList, *]
  by_cases h10 : c = '~'
  · cases cs with
    | nil => simp [lexDispatch, squoteChar, backtickChar, dquoteChar, *]
    | cons d cs' => by_cases hd : d = '@' <;> simp [lexDispatch, squoteChar, backtickChar, dquoteChar, *]
  by_cases h11 : c = '^'
  · simp [lexDispatch, squoteChar, backtickChar, dquoteChar, *]
  by_cases h12 : c = '#'
  · cases cs with
    | nil => simp [lexDispatch, squoteChar, backtickChar, dquoteChar, *]
    | cons d cs' =>
        by_cases hd1 : d = '{'
        · simp [lexDispatch, squoteChar, backtickChar, dquoteChar, *]
        by_cases hd2 : d = '_' <;> simp [lexDispatch, squoteChar, backtickChar, dquoteChar, *]
  by_cases h13 : c = ';'
  · have hs := lexComment_split cs
    have hk := lexComment_ne_eof cs
    simp [lexDispatch, squoteChar, backtickChar, dquoteChar, *]
  by_cases h14 : c = '\x22'
  · have hs := lexString_split false cs
    have hk := lexString_ne_eof false cs
    simp [lexDispatch, squoteChar, backtickChar, dquoteChar, *]
  by_cases h15 : c = '\\'
  · have hs := lexCharacter_split cs
    have hk := lexCharacter_ne_eof cs
    simp [lexDispatch, squoteChar, backtickChar, dquoteChar, *]
  by_cases h16 : c = ':'
  · have hs := takeWhileChars_split isSymbolChar cs
    simp [lexDispatch, squoteChar, backtickChar, dquoteChar, lexKeyword, *]
  by_cases h17 : isSymbolStart c
  · have hs := takeWhileChars_split isSymbolChar cs
    simp [lexDispatch, squoteChar, backtickChar, dquoteChar, lexSymbol, *]
  by_cases h18 : (isAsciiDigit c || (c = '-' && peekIsDigit cs)) = true
  · have hs := (lexNumber_spec c cs).1
    have hk := (lexNumber_spec c cs).2
    simp [lexDispatch, squoteChar, backtickChar, dquoteChar, *]
  · simp [lexDispatch, squoteChar, backtickChar, dquoteChar, *]

/-- `next_token` splits its input into skipped whitespace, the token text and
the remaining characters; the `Eof` token is produced exactly at the end of
input and every other token has non-empty text. -/
theorem nextToken_split (st : LexState) :
    ∃ w : Str, (∀ c ∈ w, rustIsWhitespace c = true) ∧
      st.rest = w ++ (nextToken st).1.text ++ (nextToken st).2.rest ∧
      ((nextToken st).1.kind = .Eof →
        (nextToken st).1.text = [] ∧ (nextToken st).2.rest = []) ∧
      ((nextToken st).1.kind ≠ .Eof → (nextToken st).1.text ≠ []) := by
  obtain ⟨w, hw, hsplit⟩ := skipWhitespaceAux_split st.rest st.pos
  rcases hrest : (skipWhitespaceAux st.rest st.pos).rest with _ | ⟨c, cs⟩
  · refine ⟨w, hw, ?_, ?_, ?_⟩
    · rw [hsplit, hrest]
      simp [nextToken, skipWhitespace, hrest]
    · intro _
      simp [nextToken, skipWhitespace, hrest]
    · intro h
      exact absurd (by simp [nextToken, skipWhitespace, hrest]) h
  · obtain ⟨hd1, hd2, hd3⟩ := lexDispatch_spec c cs
    refine ⟨w, hw, ?_, ?_, ?_⟩
    · rw [hsplit, hrest]
      simp only [nextToken, skipWhitespace, hrest]
      simpa using congrArg (w ++ ·) hd1.symm
    · intro h
      exact absurd (by simpa [nextToken, skipWhitespace, hrest] using h) hd3
    · intro _
      simpa [nextToken, skipWhitespace, hrest] using hd2

theorem nextToken_rest_lt (st : LexState) (h : (nextToken st).1.kind ≠ .Eof) :
    (nextToken st).2.rest.length < st.rest.length := by
  obtain ⟨w, _, hsplit, _, hne⟩ := nextToken_split st
  have htext := hne h
  rw [hsplit]
  cases htx : (nextToken st).1.text with
  | nil => exact absurd htx htext
  | cons a l => simp [List.length_append]; omega

/-- Whatever happens between whitespace skips: `tokenizeF` splits the remaining
input into per-token whitespace gaps followed by token texts. -/
theorem tokenizeF_interleaving : ∀ (fuel : Nat) (st : LexState),
    st.rest.length < fuel →
    ∃ gaps : List Str, gaps.length = (tokenizeF fuel st).length ∧
      (∀ g ∈ gaps, ∀ c ∈ g, rustIsWhitespace c = true) ∧
      (List.zipWith (· ++ ·) gaps ((tokenizeF fuel st).map Token.text)).flatten
        = st.rest := by
  intro fuel
  induction fuel with
  | zero => intro st h; omega
  | succ fuel ih =>
      intro st h
      obtain ⟨w, hw, hsplit, hEof, hne⟩ := nextToken_split st
      by_cases hk : (nextToken st).1.kind = .Eof
      · obtain ⟨ht, hr⟩ := hEof hk
        refine ⟨[w], by simp [tokenizeF, hk], by simpa using hw, ?_⟩
        rw [hsplit, ht, hr]
        simp [tokenizeF, hk, ht]
      · have hlt : (nextToken st).2.rest.length < fuel := by
          have := nextToken_rest_lt st hk
          omega
        obtain ⟨gaps, hlen, hgw, hjoin⟩ := ih (nextToken st).2 hlt
        refine ⟨w :: gaps, by simp [tokenizeF, hk, hlen], ?_, ?_⟩
        · intro g hg
          rcases List.mem_cons.mp hg with rfl | hg
          · exact hw
          · exact hgw g hg
        · rw [hsplit]
          simp only [tokenizeF, hk, if_neg hk]
          simp [hjoin]

/-! ## CST: `SyntaxKind`, syntax elements and the rowan green-tree builder -/

/-- `SyntaxKind` from src/syntax/mod.rs, extended with the `Comma` and
`CommaAt` node kinds that src/reader/mod.rs matches on (the snapshots of the
source disagree: the enum in syntax/mod.rs lacks them, yet the reader names
them; no lexer/parser path ever constructs them). -/
inductive SyntaxKind where
  | Root
  | List | Vector | Map | Set
  | StringLit | NumberLit | CharacterLit | KeywordLit | SymbolLit
  | Quote | Backtick | Unquote | UnquoteSplicing | Deref | Meta | Tag | Discard
  | Comma | CommaAt
  | Comment | Whitespace | Error
  | LeftParen | RightParen | LeftBracket | RightBracket | LeftBrace | RightBrace
  | String | Number | Character | Symbol | Keyword
  | QuoteToken | BacktickToken | TildeToken | TildeAtToken | CaretToken
  | HashToken | HashLeftBraceToken | CommaToken
  | CommentToken | WhitespaceToken | ErrorToken | Eof
  deriving DecidableEq, Repr

/-- `token_to_syntax_kind` from src/syntax/mod.rs. -/
def tokenToSyntaxKind : TokenKind → SyntaxKind
  | .LeftParen => .LeftParen
  | .RightParen => .RightParen
  | .LeftBracket => .LeftBracket
  | .RightBracket => .RightBracket
  | .LeftBrace => .LeftBrace
  | .RightBrace => .RightBrace
  | .String => .String
  | .Number => .Number
  | .Character => .Character
  | .Symbol => .Symbol
  | .Keyword => .Keyword
  | .Quote => .QuoteToken
  | .Backtick => .BacktickToken
  | .Tilde => .TildeToken
  | .TildeAt => .TildeAtToken
  | .Caret => .CaretToken
  | .Hash => .HashToken
  | .HashLeftBrace => .HashLeftBraceToken
  | .Comma => .CommaToken
  | .Whitespace => .WhitespaceToken
  | .Comment => .CommentToken
  | .Error => .ErrorToken
  | .Eof => .Eof

/-- A rowan green element: an interior node (with child elements) or a leaf
token carrying its text.  rowan's `SyntaxNode` iteration (`children()`) visits
only the nodes; `text()` concatenates the tokens of the whole subtree. -/
inductive SyntaxElem where
  | node (kind : SyntaxKind) (children : List SyntaxElem)
  | tok (kind : SyntaxKind) (text : Str)

/-- `Inhabited` so that `Option.get!`-style plumbing exists; the default is the
empty `Root` node. -/
instance : Inhabited SyntaxElem := ⟨.node .Root []⟩

/-- Kind of an element (`SyntaxNode::kind` / `SyntaxToken::kind`). -/
def elemKind : SyntaxElem → SyntaxKind
  | .node k _ => k
  | .tok k _ => k

/-- Whether the element is an interior node (not a token). -/
def isNode : SyntaxElem → Bool
  | .node _ _ => true
  | .tok _ _ => false

mutual

/-- `SyntaxNode::text`: concatenation of all leaf texts in the subtree. -/
def elemText : SyntaxElem → Str
  | .tok _ t => t
  | .node _ cs => elemsText cs
termination_by structural e => e

/-- Concatenated text of a list of elements, in order. -/
def elemsText : List SyntaxElem → Str
  | [] => []
  | e :: es => elemText e ++ elemsText es
termination_by structural es => es

end

/-- `SyntaxNode::children()`: the child *nodes* of a node, skipping tokens. -/
def childNodes (cs : List SyntaxElem) : List SyntaxElem := cs.filter isNode

mutual

/-- Rendering of an element, in the spirit of the `Kind@start..end` debug
output (offsets omitted). -/
def elemToString : SyntaxElem → String
  | .node k cs => "(" ++ toString (repr k) ++ " " ++ elemsToString cs ++ ")"
  | .tok k t => toString (repr k) ++ ":" ++ String.mk t

/-- Rendering of a list of elements. -/
def elemsToString : List SyntaxElem → String
  | [] => ""
  | e :: es => elemToString e ++ " " ++ elemsToString es

end

instance : Repr SyntaxElem := ⟨fun e _ => .text (elemToString e)⟩

/-- Parser state: the rowan `GreenNodeBuilder` (`parents` stack of open nodes
with the child index where each began, and the flat `children` vector), plus
the unconsumed token stream. -/
structure PState where
  parents : List (SyntaxKind × Nat)
  children : List SyntaxElem
  toks : List Token
  deriving Repr

/-- `GreenNodeBuilder::start_node`. -/
def startNode (k : SyntaxKind) (st : PState) : PState :=
  { st with parents := (k, st.children.length) :: st.parents }

/-- `GreenNodeBuilder::finish_node`: pop the most recent open node, wrap the
children added since it began into a node, and append that node to the parent
frame.  (The `[]` case cannot arise: the parser never calls `finish_node` more
often than `start_node`.) -/
def finishNode (st : PState) : PState :=
  match st.parents with
  | [] => st
  | (k, first) :: ps =>
      { st with
        parents := ps
        children := st.children.take first ++ [.node k (st.children.drop first)] }

/-- `Parser::consume_token`: move the next token, if any, into the builder as a
leaf with kind `token_to_syntax_kind(kind)`. -/
def consumeToken (st : PState) : PState :=
  match st.toks with
  | [] => st
  | t :: ts =>
      { st with
        children := st.children ++ [.tok (tokenToSyntaxKind t.kind) t.text]
        toks := ts }

/-- `Parser::peek`. -/
def peekTok (st : PState) : Option Token := st.toks.head?

/-- `Parser::peek_nth`: per the source, only `n = 0` is supported; for any
`n > 0` it returns `None`. -/
def peekNth (st : PState) (n : Nat) : Option Token :=
  if n = 0 then st.toks.head? else none

/-- `ParserError` from src/parser/mod.rs. -/
inductive PErr where
  | unexpectedToken (expected : Str) (actual : Str)
  | unexpectedEof
  | unmatchedDelimiter (text : Str)
  deriving DecidableEq, Repr

/-- The loop of `Parser::skip_until_delimiter`, with fuel; each iteration
consumes exactly one token, so the number of remaining tokens is enough fuel. -/
def skipUntilGo : Nat → PState → PState
  | 0, st => st
  | n + 1, st =>
      match st.toks with
      | [] => st
      | t :: _ =>
          if t.kind = .RightParen ∨ t.kind = .RightBracket ∨ t.kind = .RightBrace then st
          else skipUntilGo n (consumeToken st)

/-- `Parser::skip_until_delimiter`: drop tokens into the current node until a
closing delimiter (or end of input) is seen; the delimiter itself is *not*
consumed. -/
def skipUntilDelimiter (st : PState) : PState := skipUntilGo st.toks.length st

/-- The shared shape of `Parser::parse_string` / `parse_number` /
`parse_character` / `parse_keyword` / `parse_symbol` (and the `Comment` arm of
`parse_form`): wrap the single next token in a node of the given kind. -/
def parseLiteral (k : SyntaxKind) (st : PState) : Except PErr Unit × PState :=
  (.ok (), finishNode (consumeToken (startNode k st)))

mutual

/-- `Parser::parse_form`: dispatch on the kind of the next token.  Fuel
decreases at every mutual call; `none` means the fuel ran out. -/
def parseForm : Nat → PState → Option (Except PErr Unit × PState)
  | 0, _ => none
  | fuel + 1, st =>
      match peekTok st with
      | none => some (.error .unexpectedEof, st)
      | some token =>
          match token.kind with
          | .LeftParen => parseDelimited fuel .List .RightParen (")".toList) st
          | .LeftBracket => parseDelimited fuel .Vector .RightBracket ("]".toList) st
          | .LeftBrace => parseMapFn fuel st
          | .HashLeftBrace => parseDelimited fuel .Set .RightBrace ("\x7d".toList) st
          | .Quote => parsePrefixed fuel .Quote st
          | .Backtick => parsePrefixed fuel .Backtick st
          | .Tilde => parsePrefixed fuel .Unquote st
          | .TildeAt => parsePrefixed fuel .UnquoteSplicing st
          | .Caret => parseMeta fuel st
          | .Hash =>
              match peekNth st 1 with
              | some next =>
                  if next.kind = .Symbol ∧ next.text = ("_".toList) then
                    parseDiscard fuel st
                  else parsePrefixed fuel .Tag st
              | none => parsePrefixed fuel .Tag st
          | .String => some (parseLiteral .StringLit st)
          | .Number => some (parseLiteral .NumberLit st)
          | .Character => some (parseLiteral .CharacterLit st)
          | .Keyword => some (parseLiteral .KeywordLit st)
          | .Symbol => some (parseLiteral .SymbolLit st)
          | .Comment => some (parseLiteral .Comment st)
          | .Whitespace => some (.ok (), consumeToken st)
          | .RightParen => some (.error (.unmatchedDelimiter token.text), st)
          | .RightBracket => some (.error (.unmatchedDelimiter token.text), st)
          | .RightBrace => some (.error (.unmatchedDelimiter token.text), st)
          | _ => some (.ok (), consumeToken st)

/-- `Parser::parse_list` / `parse_vector` / `parse_set` (which differ only in
the node kind, the closing token kind and its display text): start the node,
consume the opening token, parse forms until the closing kind, then require
and consume the closing token. -/
def parseDelimited : Nat → SyntaxKind → TokenKind → Str → PState →
    Option (Except PErr Unit × PState)
  | 0, _, _, _, _ => none
  | fuel + 1, kind, close, closeText, st =>
      let st1 := consumeToken (startNode kind st)
      match parseDelimItems fuel close st1 with
      | none => none
      | some (.error e, st2) => some (.error e, st2)
      | some (.ok _, st2) =>
          match peekTok st2 with
          | some t =>
              if t.kind = close then some (.ok (), finishNode (consumeToken st2))
              else some (.error (.unexpectedToken closeText t.text), st2)
          | none => some (.error .unexpectedEof, st2)

/-- The `while let Some(token) = self.peek()` loop of a delimited form. -/
def parseDelimItems : Nat → TokenKind → PState → Option (Except PErr Unit × PState)
  | 0, _, _ => none
  | fuel + 1, close, st =>
      match peekTok st with
      | none => some (.ok (), st)
      | some t =>
          if t.kind = close then some (.ok (), st)
          else
            match parseForm fuel st with
            | none => none
            | some (.error e, st') => some (.error e, st')
            | some (.ok _, st') => parseDelimItems fuel close st'

/-- `Parser::parse_map`. -/
def parseMapFn : Nat → PState → Option (Except PErr Unit × PState)
  | 0, _ => none
  | fuel + 1, st =>
      let st1 := consumeToken (startNode .Map st)
      match parseMapItems fuel st1 with
      | none => none
      | some (.error e, st2) => some (.error e, st2)
      | some (.ok _, st2) =>
          match peekTok st2 with
          | some t =>
              if t.kind = .RightBrace then some (.ok (), finishNode (consumeToken st2))
              else some (.error (.unexpectedToken ("\x7d".toList) t.text), st2)
          | none => some (.error .unexpectedEof, st2)

/-- The key/value loop of `Parser::parse_map`. -/
def parseMapItems : Nat → PState → Option (Except PErr Unit × PState)
  | 0, _ => none
  | fuel + 1, st =>
      match peekTok st with
      | none => some (.ok (), st)
      | some t =>
          if t.kind = .RightBrace then some (.ok (), st)
          else
            match parseForm fuel st with
            | none => none
            | some (.error e, st') => some (.error e, st')
            | some (.ok _, st') =>
                match peekTok st' with
                | none => some (.error .unexpectedEof, st')
                | some t2 =>
                    if t2.kind = .RightBrace then
                      some (.error (.unexpectedToken ("value".toList) t2.text), st')
                    else
                      match parseForm fuel st' with
                      | none => none
                      | some (.error e, st'') => some (.error e, st'')
                      | some (.ok _, st'') => parseMapItems fuel st''

/-- `Parser::parse_quote` / `parse_backtick` / `parse_unquote` /
`parse_unquote_splicing` / `parse_tag` (identical up to the node kind): start
the node, consume the marker token, parse one form, finish. -/
def parsePrefixed : Nat → SyntaxKind → PState → Option (Except PErr Unit × PState)
  | 0, _, _ => none
  | fuel + 1, kind, st =>
      let st1 := consumeToken (startNode kind st)
      match parseForm fuel st1 with
      | none => none
      | some (.error e, st2) => some (.error e, st2)
      | some (.ok _, st2) => some (.ok (), finishNode st2)

/-- `Parser::parse_meta`: caret, then the metadata form, then the decorated form. -/
def parseMeta : Nat → PState → Option (Except PErr Unit × PState)
  | 0, _ => none
  | fuel + 1, st =>
      let st1 := consumeToken (startNode .Meta st)
      match parseForm fuel st1 with
      | none => none
      | some (.error e, st2) => some (.error e, st2)
      | some (.ok _, st2) =>
          match parseForm fuel st2 with
          | none => none
          | some (.error e, st3) => some (.error e, st3)
          | some (.ok _, st3) => some (.ok (), finishNode st3)

/-- `Parser::parse_discard` (dead code in the source, since `peek_nth 1`
always returns `None`): hash, underscore symbol, then the discarded form. -/
def parseDiscard : Nat → PState → Option (Except PErr Unit × PState)
  | 0, _ => none
  | fuel + 1, st =>
      let st1 := consumeToken (startNode .Discard st)
      match peekTok st1 with
      | none => some (.error .unexpectedEof, st1)
      | some t =>
          if t.kind = .Symbol ∧ t.text = ("_".toList) then
            match parseForm fuel (consumeToken st1) with
            | none => none
            | some (.error e, st2) => some (.error e, st2)
            | some (.ok _, st2) => some (.ok (), finishNode st2)
          else some (.error (.unexpectedToken ("_".toList) t.text), st1)

end

/-- The `while self.peek().is_some()` loop of `Parser::parse`, with its
error-recovery arm (`skip_until_delimiter`). -/
def parseLoop : Nat → PState → Option PState
  | 0, _ => none
  | fuel + 1, st =>
      match peekTok st with
      | none => some st
      | some _ =>
          match parseForm fuel st with
          | none => none
          | some (.ok _, st') => parseLoop fuel st'
          | some (.error _, st') => parseLoop fuel (skipUntilDelimiter st')

/-- `Parser::parse` composed with `parse(input)` from src/lib.rs: tokenize,
start the `Root` node, run the loop, then `finish_node` and
`GreenNodeBuilder::finish`.  rowan's `finish` asserts that exactly one element
remains in the builder's child vector and that it is a node (it does *not*
check that all started nodes were finished); a violated assertion — a Rust
panic — is modelled as `none`, as is fuel exhaustion. -/
def parseTop (fuel : Nat) (input : Str) : Option SyntaxElem :=
  let st0 : PState := ⟨[(.Root, 0)], [], tokenize input⟩
  match parseLoop fuel st0 with
  | none => none
  | some st =>
      match (finishNode st).children with
      | [SyntaxElem.node k cs] => some (.node k cs)
      | _ => none

/-- The byte range rowan reports for the root of a tree: it starts at 0 and
ends at the total byte length of the leaf text (each node's range is derived
from the lengths of the leaves below it). -/
def rootSpan (t : SyntaxElem) : Nat × Nat := (0, utf8Len (elemText t))

mutual

/-- No composite node anywhere in the element has kind `Error`. -/
def noErrNodeB : SyntaxElem → Bool
  | .tok _ _ => true
  | .node k cs => !(k == SyntaxKind.Error) && noErrNodesB cs
termination_by structural e => e

/-- `noErrNodeB` over a list of elements. -/
def noErrNodesB : List SyntaxElem → Bool
  | [] => true
  | e :: es => noErrNodeB e && noErrNodesB es
termination_by structural es => es

end

/-! ### Parser invariants: text preservation and absence of `Error` nodes -/

/-- Total text of a parser state: text already in the builder plus text of the
unconsumed tokens. -/
def stText (st : PState) : Str := elemsText st.children ++ tokensText st.toks

/-- Well-formedness carried through the parser: every element in the builder is
free of `Error` nodes and no open node has kind `Error`. -/
def stGood (st : PState) : Prop :=
  (∀ e ∈ st.children, noErrNodeB e = true) ∧ (∀ p ∈ st.parents, p.1 ≠ SyntaxKind.Error)

/-- The invariant every parser operation preserves. -/
def PInv (st st' : PState) : Prop := stText st' = stText st ∧ (stGood st → stGood st')

theorem pinvRefl {st : PState} : PInv st st := ⟨Eq.refl _, id⟩

theorem pinvTrans {a b c : PState} (h1 : PInv a b) (h2 : PInv b c) : PInv a c :=
  ⟨h2.1.trans h1.1, fun hg => h2.2 (h1.2 hg)⟩

theorem elemsText_append (a b : List SyntaxElem) :
    elemsText (a ++ b) = elemsText a ++ elemsText b := by
  induction a with
  | nil => simp [elemsText]
  | cons e es ih => simp [elemsText, ih]

theorem noErrNodesB_eq_all (cs : List SyntaxElem) :
    noErrNodesB cs = true ↔ ∀ e ∈ cs, noErrNodeB e = true := by
  induction cs with
  | nil => simp [noErrNodesB]
  | cons e es ih => simp [noErrNodesB, ih]

theorem PInv_startNode {k : SyntaxKind} (hk : k ≠ .Error) (st : PState) :
    PInv st (startNode k st) := by
  refine ⟨Eq.refl _, fun hg => ⟨hg.1, ?_⟩⟩
  intro p hp
  rcases List.mem_cons.mp hp with rfl | hp
  · exact hk
  · exact hg.2 p hp

theorem PInv_consumeToken (st : PState) : PInv st (consumeToken st) := by
  cases htoks : st.toks with
  | nil => simp [PInv, consumeToken, htoks, pinvRefl]
  | cons t ts =>
      constructor
      · simp [stText, consumeToken, htoks, elemsText_append, elemsText, elemText,
          tokensText]
      · intro hg
        refine ⟨?_, ?_⟩
        · intro e he
          simp only [consumeToken, htoks] at he
          rcases List.mem_append.mp he with he | he
          · exact hg.1 e he
          · simp only [List.mem_singleton] at he
            subst he
            simp [noErrNodeB]
        · intro p hp
          simp only [consumeToken, htoks] at hp
          exact hg.2 p hp

theorem PInv_finishNode (st : PState) : PInv st (finishNode st) := by
  cases hps : st.parents with
  | nil => simp [PInv, finishNode, hps, pinvRefl]
  | cons p ps =>
      obtain ⟨k, first⟩ := p
      constructor
      · simp only [stText, finishNode, hps]
        rw [elemsText_append]
        simp only [elemsText, elemText, List.append_nil]
        rw [← elemsText_append, List.take_append_drop]
      · intro hg
        refine ⟨?_, ?_⟩
        · intro e he
          simp only [finishNode, hps] at he
          rcases List.mem_append.mp he with he | he
          · exact hg.1 e (List.take_subset _ _ he)
          · simp only [List.mem_singleton] at he
            subst he
            have hk : k ≠ SyntaxKind.Error := hg.2 (k, first) (hps ▸ List.mem_cons_self _ _)
            simp only [noErrNodeB, Bool.and_eq_true, noErrNodesB_eq_all]
            refine ⟨by simpa using hk, ?_⟩
            intro x hx
            exact hg.1 x (List.drop_subset _ _ hx)
        · intro q hq
          simp only [finishNode, hps] at hq
          exact hg.2 q (hps ▸ List.mem_cons_of_mem _ hq)

theorem PInv_skipUntilGo (n : Nat) (st : PState) : PInv st (skipUntilGo n st) := by
  induction n generalizing st with
  | zero => exact pinvRefl
  | succ n ih =>
      cases htoks : st.toks with
      | nil => simp [skipUntilGo, htoks, pinvRefl]
      | cons t ts =>
          by_cases hk :
            t.kind = .RightParen ∨ t.kind = .RightBracket ∨ t.kind = .RightBrace
          · simp [skipUntilGo, htoks, hk, pinvRefl]
          · simp only [skipUntilGo, htoks, hk, if_false]
            exact pinvTrans (PInv_consumeToken st) (ih (consumeToken st))

theorem PInv_skipUntilDelimiter (st : PState) : PInv st (skipUntilDelimiter st) :=
  PInv_skipUntilGo st.toks.length st

theorem PInv_parseLiteral {k : SyntaxKind} (hk : k ≠ .Error) (st : PState) :
    PInv st (parseLiteral k st).2 :=
  pinvTrans (pinvTrans (PInv_startNode hk st) (PInv_consumeToken _)) (PInv_finishNode _)

/-- Every recursive-descent parsing function preserves the total text and the
absence of `Error` nodes, whatever it returns. -/
theorem parseFns_inv : ∀ fuel : Nat,
    (∀ st r st', parseForm fuel st = some (r, st') → PInv st st') ∧
    (∀ kind close ctext st r st', kind ≠ SyntaxKind.Error →
      parseDelimited fuel kind close ctext st = some (r, st') → PInv st st') ∧
    (∀ close st r st', parseDelimItems fuel close st = some (r, st') → PInv st st') ∧
    (∀ st r st', parseMapFn fuel st = some (r, st') → PInv st st') ∧
    (∀ st r st', parseMapItems fuel st = some (r, st') → PInv st st') ∧
    (∀ kind st r st', kind ≠ SyntaxKind.Error →
      parsePrefixed fuel kind st = some (r, st') → PInv st st') ∧
    (∀ st r st', parseMeta fuel st = some (r, st') → PInv st st') ∧
    (∀ st r st', parseDiscard fuel st = some (r, st') → PInv st st') := by
  intro fuel
  induction fuel with
  | zero =>
      refine ⟨?_, ?_, ?_, ?_, ?_, ?_, ?_, ?_⟩ <;> intros <;>
        simp_all [parseForm, parseDelimited, parseDelimItems, parseMapFn,
          parseMapItems, parsePrefixed, parseMeta, parseDiscard]
  | succ fuel ih =>
      obtain ⟨ihForm, ihDelim, ihItems, ihMap, ihMapItems, ihPre, ihMeta, ihDis⟩ := ih
      refine ⟨?_, ?_, ?_, ?_, ?_, ?_, ?_, ?_⟩
      · -- parseForm
        intro st r st' h
        rw [parseForm] at h
        cases hpk : peekTok st with
        | none =>
            rw [hpk] at h
            simp only [Option.some.injEq, Prod.mk.injEq] at h
            obtain ⟨-, rfl⟩ := h
            exact pinvRefl
        | some token =>
            rw [hpk] at h
            simp only [] at h
            cases hkind : token.kind <;> rw [hkind] at h <;> simp only [] at h
            case LeftParen => exact ihDelim _ _ _ _ _ _ (by decide) h
            case LeftBracket => exact ihDelim _ _ _ _ _ _ (by decide) h
            case LeftBrace => exact ihMap _ _ _ h
            case HashLeftBrace => exact ihDelim _ _ _ _ _ _ (by decide) h
            case Quote => exact ihPre _ _ _ _ (by decide) h
            case Backtick => exact ihPre _ _ _ _ (by decide) h
            case Tilde => exact ihPre _ _ _ _ (by decide) h
            case TildeAt => exact ihPre _ _ _ _ (by decide) h
            case Caret => exact ihMeta _ _ _ h
            case Hash =>
                simp only [peekNth] at h
                exact ihPre _ _ _ _ (by decide) h
            case String =>
                simp only [Option.some.injEq] at h
                have h2 : (parseLiteral _ st).2 = st' := congrArg Prod.snd h
                exact h2 ▸ PInv_parseLiteral (by decide) st
            case Number =>
                simp only [Option.some.injEq] at h
                have h2 : (parseLiteral _ st).2 = st' := congrArg Prod.snd h
                exact h2 ▸ PInv_parseLiteral (by decide) st
            case Character =>
                simp only [Option.some.injEq] at h
                have h2 : (parseLiteral _ st).2 = st' := congrArg Prod.snd h
                exact h2 ▸ PInv_parseLiteral (by decide) st
            case Keyword =>
                simp only [Option.some.injEq] at h
                have h2 : (parseLiteral _ st).2 = st' := congrArg Prod.snd h
                exact h2 ▸ PInv_parseLiteral (by decide) st
            case Symbol =>
                simp only [Option.some.injEq] at h
                have h2 : (parseLiteral _ st).2 = st' := congrArg Prod.snd h
                exact h2 ▸ PInv_parseLiteral (by decide) st
            case Comment =>
                simp only [Option.some.injEq] at h
                have h2 : (parseLiteral _ st).2 = st' := congrArg Prod.snd h
                exact h2 ▸ PInv_parseLiteral (by decide) st
            case Whitespace =>
                simp only [Option.some.injEq, Prod.mk.injEq] at h
                obtain ⟨-, rfl⟩ := h
                exact PInv_consumeToken st
            case RightParen =>
                simp only [Option.some.injEq, Prod.mk.injEq] at h
                obtain ⟨-, rfl⟩ := h
                exact pinvRefl
            case RightBracket =>
                simp only [Option.some.injEq, Prod.mk.injEq] at h
                obtain ⟨-, rfl⟩ := h
                exact pinvRefl
            case RightBrace =>
                simp only [Option.some.injEq, Prod.mk.injEq] at h
                obtain ⟨-, rfl⟩ := h
                exact pinvRefl
            case Comma =>
                simp only [Option.some.injEq, Prod.mk.injEq] at h
                obtain ⟨-, rfl⟩ := h
                exact PInv_consumeToken st
            case Error =>
                simp only [Option.some.injEq, Prod.mk.injEq] at h
                obtain ⟨-, rfl⟩ := h
                exact PInv_consumeToken st
            case Eof =>
                simp only [Option.some.injEq, Prod.mk.injEq] at h
                obtain ⟨-, rfl⟩ := h
                exact PInv_consumeToken st
      · -- parseDelimited
        intro kind close ctext st r st' hk h
        rw [parseDelimited] at h
        have base : PInv st (consumeToken (startNode kind st)) :=
          pinvTrans (PInv_startNode hk st) (PInv_consumeToken _)
        split at h
        · exact absurd h (by simp)
        · rename_i e st2 heq
          simp only [Option.some.injEq, Prod.mk.injEq] at h
          obtain ⟨-, rfl⟩ := h
          exact pinvTrans base (ihItems _ _ _ _ heq)
        · rename_i u st2 heq
          have mid : PInv st st2 := pinvTrans base (ihItems _ _ _ _ heq)
          split at h
          · rename_i t hpk
            split at h
            · simp only [Option.some.injEq, Prod.mk.injEq] at h
              obtain ⟨-, rfl⟩ := h
              exact pinvTrans mid (pinvTrans (PInv_consumeToken st2) (PInv_finishNode _))
            · simp only [Option.some.injEq, Prod.mk.injEq] at h
              obtain ⟨-, rfl⟩ := h
              exact mid
          · simp only [Option.some.injEq, Prod.mk.injEq] at h
            obtain ⟨-, rfl⟩ := h
            exact mid
      · -- parseDelimItems
        intro close st r st' h
        rw [parseDelimItems] at h
        split at h
        · simp only [Option.some.injEq, Prod.mk.injEq] at h
          obtain ⟨-, rfl⟩ := h
          exact pinvRefl
        · rename_i t hpk
          split at h
          · simp only [Option.some.injEq, Prod.mk.injEq] at h
            obtain ⟨-, rfl⟩ := h
            exact pinvRefl
          · split at h
            · exact absurd h (by simp)
            · rename_i e stA heq
              simp only [Option.some.injEq, Prod.mk.injEq] at h
              obtain ⟨-, rfl⟩ := h
              exact ihForm _ _ _ heq
            · rename_i u stA heq
              exact pinvTrans (ihForm _ _ _ heq) (ihItems _ _ _ _ h)
      · -- parseMapFn
        intro st r st' h
        rw [parseMapFn] at h
        have base : PInv st (consumeToken (startNode .Map st)) :=
          pinvTrans (PInv_startNode (by decide) st) (PInv_consumeToken _)
        split at h
        · exact absurd h (by simp)
        · rename_i e st2 heq
          simp only [Option.some.injEq, Prod.mk.injEq] at h
          obtain ⟨-, rfl⟩ := h
          exact pinvTrans base (ihMapItems _ _ _ heq)
        · rename_i u st2 heq
          have mid : PInv st st2 := pinvTrans base (ihMapItems _ _ _ heq)
          split at h
          · rename_i t hpk
            split at h
            · simp only [Option.some.injEq, Prod.mk.injEq] at h
              obtain ⟨-, rfl⟩ := h
              exact pinvTrans mid (pinvTrans (PInv_consumeToken st2) (PInv_finishNode _))
            · simp only [Option.some.injEq, Prod.mk.injEq] at h
              obtain ⟨-, rfl⟩ := h
              exact mid
          · simp only [Option.some.injEq, Prod.mk.injEq] at h
            obtain ⟨-, rfl⟩ := h
            exact mid
      · -- parseMapItems
        intro st r st' h
        rw [parseMapItems] at h
        split at h
        · simp only [Option.some.injEq, Prod.mk.injEq] at h
          obtain ⟨-, rfl⟩ := h
          exact pinvRefl
        · rename_i t hpk
          split at h
          · simp only [Option.some.injEq, Prod.mk.injEq] at h
            obtain ⟨-, rfl⟩ := h
            exact pinvRefl
          · split at h
            · exact absurd h (by simp)
            · rename_i e stA heq
              simp only [Option.some.injEq, Prod.mk.injEq] at h
              obtain ⟨-, rfl⟩ := h
              exact ihForm _ _ _ heq
            · rename_i u stA heq
              have first : PInv st stA := ihForm _ _ _ heq
              split at h
              · simp only [Option.some.injEq, Prod.mk.injEq] at h
                obtain ⟨-, rfl⟩ := h
                exact first
              · rename_i t2 hpk2
                split at h
                · simp only [Option.some.injEq, Prod.mk.injEq] at h
                  obtain ⟨-, rfl⟩ := h
                  exact first
                · split at h
                  · exact absurd h (by simp)
                  · rename_i e stB heq2
                    simp only [Option.some.injEq, Prod.mk.injEq] at h
                    obtain ⟨-, rfl⟩ := h
                    exact pinvTrans first (ihForm _ _ _ heq2)
                  · rename_i u2 stB heq2
                    exact pinvTrans (pinvTrans first (ihForm _ _ _ heq2))
                      (ihMapItems _ _ _ h)
      · -- parsePrefixed
        intro kind st r st' hk h
        rw [parsePrefixed] at h
        have base : PInv st (consumeToken (startNode kind st)) :=
          pinvTrans (PInv_startNode hk st) (PInv_consumeToken _)
        split at h
        · exact absurd h (by simp)
        · rename_i e st2 heq
          simp only [Option.some.injEq, Prod.mk.injEq] at h
          obtain ⟨-, rfl⟩ := h
          exact pinvTrans base (ihForm _ _ _ heq)
        · rename_i u st2 heq
          simp only [Option.some.injEq, Prod.mk.injEq] at h
          obtain ⟨-, rfl⟩ := h
          exact pinvTrans (pinvTrans base (ihForm _ _ _ heq)) (PInv_finishNode _)
      · -- parseMeta
        intro st r st' h
        rw [parseMeta] at h
        have base : PInv st (consumeToken (startNode .Meta st)) :=
          pinvTrans (PInv_startNode (by decide) st) (PInv_consumeToken _)
        split at h
        · exact absurd h (by simp)
        · rename_i e st2 heq
          simp only [Option.some.injEq, Prod.mk.injEq] at h
          obtain ⟨-, rfl⟩ := h
          exact pinvTrans base (ihForm _ _ _ heq)
        · rename_i u st2 heq
          have mid : PInv st st2 := pinvTrans base (ihForm _ _ _ heq)
          split at h
          · exact absurd h (by simp)
          · rename_i e st3 heq2
            simp only [Option.some.injEq, Prod.mk.injEq] at h
            obtain ⟨-, rfl⟩ := h
            exact pinvTrans mid (ihForm _ _ _ heq2)
          · rename_i u2 st3 heq2
            simp only [Option.some.injEq, Prod.mk.injEq] at h
            obtain ⟨-, rfl⟩ := h
            exact pinvTrans (pinvTrans mid (ihForm _ _ _ heq2)) (PInv_finishNode _)
      · -- parseDiscard
        intro st r st' h
        rw [parseDiscard] at h
        have base : PInv st (consumeToken (startNode .Discard st)) :=
          pinvTrans (PInv_startNode (by decide) st) (PInv_consumeToken _)
        split at h
        · simp only [Option.some.injEq, Prod.mk.injEq] at h
          obtain ⟨-, rfl⟩ := h
          exact base
        · rename_i t hpk
          split at h
          · have base2 :
                PInv st (consumeToken (consumeToken (startNode .Discard st))) :=
              pinvTrans base (PInv_consumeToken _)
            split at h
            · exact absurd h (by simp)
            · rename_i e st2 heq
              simp only [Option.some.injEq, Prod.mk.injEq] at h
              obtain ⟨-, rfl⟩ := h
              exact pinvTrans base2 (ihForm _ _ _ heq)
            · rename_i u st2 heq
              simp only [Option.some.injEq, Prod.mk.injEq] at h
              obtain ⟨-, rfl⟩ := h
              exact pinvTrans (pinvTrans base2 (ihForm _ _ _ heq)) (PInv_finishNode _)
          · simp only [Option.some.injEq, Prod.mk.injEq] at h
            obtain ⟨-, rfl⟩ := h
            exact base

theorem parseLoop_inv : ∀ fuel st st', parseLoop fuel st = some st' →
    PInv st st' ∧ st'.toks = [] := by
  intro fuel
  induction fuel with
  | zero => intro st st' h; simp [parseLoop] at h
  | succ fuel ih =>
      intro st st' h
      rw [parseLoop] at h
      split at h
      · rename_i hpk
        simp only [Option.some.injEq] at h
        subst h
        refine ⟨pinvRefl, ?_⟩
        simpa [peekTok, List.head?_eq_none_iff] using hpk
      · rename_i tk hpk
        split at h
        · exact absurd h (by simp)
        · rename_i u stA heq
          obtain ⟨h1, h2⟩ := ih _ _ h
          exact ⟨pinvTrans ((parseFns_inv fuel).1 _ _ _ heq) h1, h2⟩
        · rename_i e stA heq
          obtain ⟨h1, h2⟩ := ih _ _ h
          exact ⟨pinvTrans (pinvTrans ((parseFns_inv fuel).1 _ _ _ heq)
            (PInv_skipUntilDelimiter _)) h1, h2⟩

theorem finishNode_toks (st : PState) : (finishNode st).toks = st.toks := by
  unfold finishNode
  split <;> rfl

/-- Whenever `parse` returns a tree, its leaf text is exactly the concatenated
text of the token stream, and no `Error` composite node occurs in it. -/
theorem parseTop_spec (fuel : Nat) (s : Str) (t : SyntaxElem)
    (h : parseTop fuel s = some t) :
    elemText t = tokensText (tokenize s) ∧ noErrNodeB t = true := by
  rw [parseTop] at h
  split at h
  · exact absurd h (by simp)
  · rename_i st heq
    split at h
    · rename_i k cs heq2
      simp only [Option.some.injEq] at h
      subst h
      obtain ⟨hinv, htoks⟩ := parseLoop_inv fuel _ st heq
      have hfin := PInv_finishNode st
      have htext : stText (finishNode st) = stText ⟨[(.Root, 0)], [], tokenize s⟩ :=
        hfin.1.trans hinv.1
      have hg : stGood (finishNode st) := by
        refine hfin.2 (hinv.2 ⟨by simp, ?_⟩)
        intro p hp
        simp only [List.mem_singleton] at hp
        subst hp
        decide
      have hftoks : (finishNode st).toks = [] := (finishNode_toks st).trans htoks
      constructor
      · have h1 : stText (finishNode st) = elemText (.node k cs) := by
          simp [stText, heq2, hftoks, tokensText, elemsText, elemText]
        have h2 : stText ⟨[(.Root, 0)], [], tokenize s⟩ = tokensText (tokenize s) := by
          simp [stText, elemsText]
        rw [← h1, htext, h2]
      · exact hg.1 (.node k cs) (heq2 ▸ List.mem_singleton.mpr rfl)
    · exact absurd h (by simp)

/-- The stray-close-delimiter loop: on input `")"` each iteration of
`Parser::parse` fails in `parse_form` without consuming anything and
`skip_until_delimiter` stops at the very same token, so the loop never ends,
whatever the fuel. -/
theorem parseLoop_rparen_stuck : ∀ fuel,
    parseLoop fuel ⟨[(.Root, 0)], [], tokenize (")".toList)⟩ = none := by
  intro fuel
  induction fuel with
  | zero => rfl
  | succ fuel ih =>
      cases fuel with
      | zero => rfl
      | succ f => exact ih

/-! ## Values, environments, errors (src/reader/value.rs)

Rust `f64` is modelled exactly by `ℚ`; `HashMap`/`HashSet`, whose iteration
order Rust leaves unspecified, are modelled as insertion-ordered association
lists with insert-replaces-by-key / insert-deduplicates semantics.  No claim
proved below compares maps or sets across different insertion orders.
`Rc<RefCell<Environment>>` is an index into an explicit `Store` of frames. -/

/-- The builtin functions `standard_env` registers (src/lib.rs /
src/builtins.rs), as tags for the function pointers. -/
inductive BuiltinName where
  | add | sub | mul | div | eqB | ltB | gtB | notB | listB | firstB | restB
  deriving DecidableEq, Repr

/-- `Value` from src/reader/value.rs; the `Function` and `Macro` structs are
inlined into their constructors.  `env` is the index of the captured frame. -/
inductive Value where
  | nil
  | boolean (b : Bool)
  | number (n : ℚ)
  | str (s : Str)
  | symbol (s : Str)
  | keyword (s : Str)
  | list (items : List Value)
  | vector (items : List Value)
  | mapV (entries : List (Value × Value))
  | setV (items : List Value)
  | function (params : List Str) (body : List Value) (env : Nat)
      (isBuiltin : Bool) (builtinFn : Option BuiltinName)
  | makro (params : List Str) (body : List Value) (env : Nat)

instance : Inhabited Value := ⟨.nil⟩

mutual

/-- `PartialEq for Value`: structural on data variants; `Function` and `Macro`
values are never equal to anything (the source's catch-all returns `false`). -/
def valueEq : Value → Value → Bool
  | .nil, .nil => true
  | .boolean a, .boolean b => a == b
  | .number a, .number b => a == b
  | .str a, .str b => a == b
  | .symbol a, .symbol b => a == b
  | .keyword a, .keyword b => a == b
  | .list a, .list b => valueEqList a b
  | .vector a, .vector b => valueEqList a b
  | .mapV a, .mapV b => valueEqPairs a b
  | .setV a, .setV b => valueEqList a b
  | _, _ => false
termination_by structural a => a

/-- Pointwise equality of value lists. -/
def valueEqList : List Value → List Value → Bool
  | [], [] => true
  | a :: xs, b :: ys => valueEq a b && valueEqList xs ys
  | _, _ => false
termination_by structural a => a

/-- Pointwise equality of entry lists. -/
def valueEqPairs : List (Value × Value) → List (Value × Value) → Bool
  | [], [] => true
  | (k1, v1) :: xs, (k2, v2) :: ys => valueEq k1 k2 && valueEq v1 v2 && valueEqPairs xs ys
  | _, _ => false
termination_by structural a => a

end

/-- `HashSet::insert` over the list model: add the value unless an equal one is
present. -/
def setInsert (items : List Value) (v : Value) : List Value :=
  if items.any (fun x => valueEq x v) then items else items ++ [v]

/-- `HashMap::insert` over the list model: replace the entry with an equal key,
else append. -/
def mapInsert : List (Value × Value) → Value → Value → List (Value × Value)
  | [], k, v => [(k, v)]
  | (k', v') :: rest, k, v =>
      if valueEq k' k then (k, v) :: rest else (k', v') :: mapInsert rest k v

/-- `EvalError` from src/reader/value.rs.  `TypeError`'s `got` field holds the
offending value itself (the source stores its `Debug` rendering; for `<`/`>`
it renders both arguments — here the list of arguments is carried). -/
inductive EvalError where
  | unboundSymbol (name : Str)
  | notCallable (value : Value)
  | arityMismatch (expected : Nat) (got : Nat)
  | typeError (expected : Str) (got : Value)
  | syntaxError (msg : Str)
  | other (msg : Str)

/-- `Environment` from src/reader/value.rs: bindings plus an optional outer
frame (an index into the store). -/
structure Frame where
  bindings : List (Str × Value)
  outer : Option Nat

/-- The heap of frames standing in for the `Rc<RefCell<Environment>>` graph. -/
abbrev Store := List Frame

/-- `HashMap<String, Value>` insert for a frame's bindings. -/
def insertAssoc : List (Str × Value) → Str → Value → List (Str × Value)
  | [], k, v => [(k, v)]
  | (k', v') :: rest, k, v =>
      if k' = k then (k, v) :: rest else (k', v') :: insertAssoc rest k v

/-- `HashMap<String, Value>` lookup. -/
def lookupAssoc : List (Str × Value) → Str → Option Value
  | [], _ => none
  | (k', v') :: rest, k => if k' = k then some v' else lookupAssoc rest k

/-- The recursion of `Environment::get`, with fuel bounding the number of
outer hops. -/
def envGetF (store : Store) : Nat → Nat → Str → Option Value
  | 0, _, _ => none
  | f + 1, r, key =>
      match store.get? r with
      | none => none
      | some fr =>
          match lookupAssoc fr.bindings key with
          | some v => some v
          | none =>
              match fr.outer with
              | some o => envGetF store f o key
              | none => none

/-- `Environment::get`: every frame the interpreter allocates has an outer
index strictly below its own, so the chain from any frame makes at most
`store.length` hops. -/
def envGet (store : Store) (r : Nat) (key : Str) : Option Value :=
  envGetF store store.length r key

/-- `Environment::set` on the frame `r` (`env.borrow_mut().set(...)`): always
writes the addressed frame, never an outer one. -/
def envSet (store : Store) (r : Nat) (key : Str) (v : Value) : Store :=
  match store.get? r with
  | none => store
  | some fr => store.set r { fr with bindings := insertAssoc fr.bindings key v }

/-! ## Builtins (src/lib.rs `standard_env`; duplicated in src/builtins.rs)

Every builtin closure in the source binds its environment parameter as `_env`
and never reads or writes it, so the model gives builtins the pure type
`List Value → Except EvalError Value`. -/

/-- The `for arg in args { sum += n }` loop of `+`. -/
def sumNums : ℚ → List Value → Except EvalError ℚ
  | acc, [] => .ok acc
  | acc, arg :: rest =>
      match arg with
      | .number n => sumNums (acc + n) rest
      | _ => .error (.typeError ("number".toList) arg)

/-- The product loop of `*`. -/
def prodNums : ℚ → List Value → Except EvalError ℚ
  | acc, [] => .ok acc
  | acc, arg :: rest =>
      match arg with
      | .number n => prodNums (acc * n) rest
      | _ => .error (.typeError ("number".toList) arg)

/-- The left fold of `-` over the remaining arguments. -/
def subNums : ℚ → List Value → Except EvalError ℚ
  | acc, [] => .ok acc
  | acc, arg :: rest =>
      match arg with
      | .number n => subNums (acc - n) rest
      | _ => .error (.typeError ("number".toList) arg)

/-- The left fold of `/` over the remaining arguments, with the zero check. -/
def divNums : ℚ → List Value → Except EvalError ℚ
  | acc, [] => .ok acc
  | acc, arg :: rest =>
      match arg with
      | .number n =>
          if n = 0 then .error (.other ("Division by zero".toList))
          else divNums (acc / n) rest
      | _ => .error (.typeError ("number".toList) arg)

/-- The builtin bodies from `standard_env`. -/
def runBuiltin : BuiltinName → List Value → Except EvalError Value
  | .add, args => (sumNums 0 args).map Value.number
  | .sub, args =>
      match args with
      | [] => .error (.arityMismatch 1 0)
      | first :: rest =>
          match first with
          | .number n =>
              match rest with
              | [] => .ok (.number (-n))
              | _ => (subNums n rest).map Value.number
          | _ => .error (.typeError ("number".toList) first)
  | .mul, args => (prodNums 1 args).map Value.number
  | .div, args =>
      match args with
      | [] => .error (.arityMismatch 1 0)
      | first :: rest =>
          match first with
          | .number n =>
              match rest with
              | [] =>
                  if n = 0 then .error (.other ("Division by zero".toList))
                  else .ok (.number (1 / n))
              | _ => (divNums n rest).map Value.number
          | _ => .error (.typeError ("number".toList) first)
  | .eqB, args =>
      if args.length < 2 then .error (.arityMismatch 2 args.length)
      else
        match args with
        | [] => .error (.arityMismatch 2 0)
        | first :: rest => .ok (.boolean (rest.all (fun a => valueEq first a)))
  | .ltB, args =>
      match args with
      | [a, b] =>
          match a, b with
          | .number x, .number y => .ok (.boolean (decide (x < y)))
          | _, _ => .error (.typeError ("number".toList) (.list [a, b]))
      | _ => .error (.arityMismatch 2 args.length)
  | .gtB, args =>
      match args with
      | [a, b] =>
          match a, b with
          | .number x, .number y => .ok (.boolean (decide (x > y)))
          | _, _ => .error (.typeError ("number".toList) (.list [a, b]))
      | _ => .error (.arityMismatch 2 args.length)
  | .notB, args =>
      match args with
      | [a] =>
          match a with
          | .boolean b => .ok (.boolean (!b))
          | .nil => .ok (.boolean true)
          | _ => .ok (.boolean false)
      | _ => .error (.arityMismatch 1 args.length)
  | .listB, args => .ok (.list args)
  | .firstB, args =>
      match args with
      | [a] =>
          match a with
          | .list items =>
              match items with
              | [] => .ok .nil
              | x :: _ => .ok x
          | .vector items =>
              match items with
              | [] => .ok .nil
              | x :: _ => .ok x
          | _ => .error (.typeError ("list or vector".toList) a)
      | _ => .error (.arityMismatch 1 args.length)
  | .restB, args =>
      match args with
      | [a] =>
          match a with
          | .list items =>
              match items with
              | [] => .ok (.list [])
              | _ :: rest => .ok (.list rest)
          | .vector items =>
              match items with
              | [] => .ok (.vector [])
              | _ :: rest => .ok (.vector rest)
          | _ => .error (.typeError ("list or vector".toList) a)
      | _ => .error (.arityMismatch 1 args.length)

/-- A registered builtin value (`Function::builtin`): empty params and body,
`is_builtin` set.  The source allocates a fresh, never-read environment per
builtin; the model stores index 0. -/
def builtinVal (b : BuiltinName) : Value := .function [] [] 0 true (some b)

/-- `standard_env()` from src/lib.rs: one root frame with the builtins bound in
registration order. -/
def standardEnv : Store :=
  [⟨[("+".toList, builtinVal .add), ("-".toList, builtinVal .sub),
     ("*".toList, builtinVal .mul), ("/".toList, builtinVal .div),
     ("=".toList, builtinVal .eqB), ("<".toList, builtinVal .ltB),
     (">".toList, builtinVal .gtB), ("not".toList, builtinVal .notB),
     ("list".toList, builtinVal .listB), ("first".toList, builtinVal .firstB),
     ("rest".toList, builtinVal .restB)], none⟩]

/-! ## Reader (src/reader/mod.rs) -/

/-- Numeric value of a decimal-digit string. -/
def digitsToNat (ds : Str) : Nat :=
  ds.foldl (fun a c => 10 * a + (c.toNat - ('0').toNat)) 0

/-- The exact rational `±(ip.fp) · 10^e`. -/
def parseF64Val (neg : Bool) (ip fp : Str) (e : Int) : ℚ :=
  let mant : ℚ := (digitsToNat (ip ++ fp) : ℚ) / (10 : ℚ) ^ fp.length
  let m := if neg then -mant else mant
  if 0 ≤ e then m * (10 : ℚ) ^ e.toNat else m / (10 : ℚ) ^ (-e).toNat

/-- The optional exponent suffix of Rust's `f64` grammar; anything left over
after it rejects the whole literal. -/
def parseF64Exp (neg : Bool) (ip fp : Str) (rest : Str) : Option ℚ :=
  match rest with
  | [] => some (parseF64Val neg ip fp 0)
  | c :: rest' =>
      if c = 'e' ∨ c = 'E' then
        let (eneg, rest'') :=
          if rest'.head? = some '+' then (false, rest'.tail)
          else if rest'.head? = some '-' then (true, rest'.tail)
          else (false, rest')
        let (ed, rest3) := takeWhileChars isAsciiDigit rest''
        if ed.isEmpty ∨ ¬ rest3.isEmpty then none
        else
          some (parseF64Val neg ip fp
            (if eneg then -(digitsToNat ed : Int) else (digitsToNat ed : Int)))
      else none

/-- Rust's `f64::from_str` (`text.parse::<f64>()`), restricted to the finite
grammar `[+-]? (digit+ | digit+ . digit* | digit* . digit+) ([eE] [+-]? digit+)?`
and evaluated exactly in `ℚ`.  Hex (`0x…`), binary (`0b…`) and `N`/`L`-suffixed
texts are rejected, exactly as `from_str` rejects them.  (The `inf`/`NaN`
word forms of `from_str` are not modelled: the lexer can never produce them
in a `Number` token.) -/
def parseF64 (cs : Str) : Option ℚ :=
  let (neg, cs1) :=
    if cs.head? = some '+' then (false, cs.tail)
    else if cs.head? = some '-' then (true, cs.tail)
    else (false, cs)
  let (ip, cs2) := takeWhileChars isAsciiDigit cs1
  match cs2 with
  | '.' :: cs3 =>
      let (fp, cs4) := takeWhileChars isAsciiDigit cs3
      if ip.isEmpty && fp.isEmpty then none
      else parseF64Exp neg ip fp cs4
  | _ => if ip.isEmpty then none else parseF64Exp neg ip [] cs2

/-- `is_delimiter` from src/reader/mod.rs. -/
def isDelimiterKind (k : SyntaxKind) : Bool :=
  k == .LeftParen || k == .RightParen || k == .LeftBracket ||
    k == .RightBracket || k == .LeftBrace || k == .RightBrace

/-- The reader's map construction: children are consumed pairwise into
`HashMap::insert`. -/
def buildMapPairs : List Value → List (Value × Value) → List (Value × Value)
  | [], acc => acc
  | [_], acc => acc
  | k :: v :: rest, acc => buildMapPairs rest (mapInsert acc k v)

mutual

/-- `read` from src/reader/mod.rs.  It walks `node.children()` — the child
*nodes* only; leaf tokens (delimiters, reader-macro markers, error tokens, the
`Eof` token) are invisible to it.  A token element, on which the source can
never call `read`, is treated like a childless catch-all node. -/
def readF : Nat → SyntaxElem → Option (Except EvalError Value)
  | 0, _ => none
  | _ + 1, .tok _ _ => some (.ok .nil)
  | fuel + 1, .node kind cs =>
      match kind with
      | .Root =>
          match readFormsF fuel ((childNodes cs).filter (fun c => elemKind c ≠ .Eof)) with
          | none => none
          | some (.error e) => some (.error e)
          | some (.ok forms) =>
              match forms with
              | [f] => some (.ok f)
              | _ => some (.ok (.list forms))
      | .NumberLit =>
          match parseF64 (elemText (.node kind cs)) with
          | some q => some (.ok (.number q))
          | none =>
              some (.error (.syntaxError
                (("Invalid number: ".toList) ++ elemText (.node kind cs))))
      | .StringLit =>
          some (.ok (.str (((elemText (.node kind cs)).drop 1).dropLast)))
      | .SymbolLit => some (.ok (.symbol (elemText (.node kind cs))))
      | .KeywordLit => some (.ok (.keyword ((elemText (.node kind cs)).drop 1)))
      | .List =>
          match readFormsF fuel
              ((childNodes cs).filter (fun c => !isDelimiterKind (elemKind c))) with
          | none => none
          | some (.error e) => some (.error e)
          | some (.ok forms) => some (.ok (.list forms))
      | .Vector =>
          match readFormsF fuel
              ((childNodes cs).filter (fun c => !isDelimiterKind (elemKind c))) with
          | none => none
          | some (.error e) => some (.error e)
          | some (.ok forms) => some (.ok (.vector forms))
      | .Map =>
          match readFormsF fuel
              ((childNodes cs).filter (fun c => !isDelimiterKind (elemKind c))) with
          | none => none
          | some (.error e) => some (.error e)
          | some (.ok forms) =>
              if forms.length % 2 = 1 then
                some (.error (.syntaxError
                  ("Map literal must have an even number of forms".toList)))
              else some (.ok (.mapV (buildMapPairs forms [])))
      | .Set =>
          match readFormsF fuel
              ((childNodes cs).filter (fun c => !isDelimiterKind (elemKind c))) with
          | none => none
          | some (.error e) => some (.error e)
          | some (.ok forms) => some (.ok (.setV (forms.foldl setInsert [])))
      | .Quote =>
          match readFormsF fuel ((childNodes cs).filter (fun c => elemKind c ≠ .Quote)) with
          | none => none
          | some (.error e) => some (.error e)
          | some (.ok forms) => some (.ok (.list (.symbol ("quote".toList) :: forms)))
      | .Backtick =>
          match readFormsF fuel
              ((childNodes cs).filter (fun c => elemKind c ≠ .Backtick)) with
          | none => none
          | some (.error e) => some (.error e)
          | some (.ok forms) =>
              some (.ok (.list (.symbol ("quasiquote".toList) :: forms)))
      | .Comma =>
          match readFormsF fuel ((childNodes cs).filter (fun c => elemKind c ≠ .Comma)) with
          | none => none
          | some (.error e) => some (.error e)
          | some (.ok forms) => some (.ok (.list (.symbol ("unquote".toList) :: forms)))
      | .CommaAt =>
          match readFormsF fuel
              ((childNodes cs).filter (fun c => elemKind c ≠ .CommaAt)) with
          | none => none
          | some (.error e) => some (.error e)
          | some (.ok forms) =>
              some (.ok (.list (.symbol ("unquote-splicing".toList) :: forms)))
      | _ =>
          match readFormsF fuel (childNodes cs) with
          | none => none
          | some (.error e) => some (.error e)
          | some (.ok forms) =>
              match forms with
              | [f] => some (.ok f)
              | [] => some (.ok .nil)
              | _ => some (.ok (.list forms))

/-- Sequential `read` over a list of child nodes, failing at the first error. -/
def readFormsF : Nat → List SyntaxElem → Option (Except EvalError (List Value))
  | 0, _ => none
  | _ + 1, [] => some (.ok [])
  | fuel + 1, e :: es =>
      match readF fuel e with
      | none => none
      | some (.error err) => some (.error err)
      | some (.ok v) =>
          match readFormsF fuel es with
          | none => none
          | some (.error err) => some (.error err)
          | some (.ok vs) => some (.ok (v :: vs))

end

/-- `read_str(input)` from src/lib.rs: parse, then read. -/
def readStr (fuel : Nat) (input : Str) : Option (Except EvalError Value) :=
  match parseTop fuel input with
  | none => none
  | some t => readF fuel t

/-! ## Evaluator (src/reader/mod.rs `eval` / `apply_function`) -/

/-- Collect the parameter names of `fn`/`macro`, requiring each to be a
symbol. -/
def paramNames : List Value → Except EvalError (List Str)
  | [] => .ok []
  | p :: rest =>
      match p with
      | .symbol n => (paramNames rest).map (fun ns => n :: ns)
      | _ => .error (.typeError ("symbol".toList) p)

/-- The `fn` special form (no evaluation, no store access). -/
def evalFn (items : List Value) (env : Nat) : Except EvalError Value :=
  if items.length < 3 then .error (.arityMismatch 2 (items.length - 1))
  else
    match items with
    | _ :: p1 :: _ =>
        match p1 with
        | .vector params =>
            match paramNames params with
            | .ok names => .ok (.function names (items.drop 2) env false none)
            | .error e => .error e
        | _ => .error (.typeError ("vector".toList) p1)
    | _ => .error (.arityMismatch 2 (items.length - 1))

/-- The `macro` special form: same shape as `fn`, distinct tag. -/
def evalMakro (items : List Value) (env : Nat) : Except EvalError Value :=
  if items.length < 3 then .error (.arityMismatch 2 (items.length - 1))
  else
    match items with
    | _ :: p1 :: _ =>
        match p1 with
        | .vector params =>
            match paramNames params with
            | .ok names => .ok (.makro names (items.drop 2) env)
            | .error e => .error e
        | _ => .error (.typeError ("vector".toList) p1)
    | _ => .error (.arityMismatch 2 (items.length - 1))

/-- Bind parameters to arguments in the fresh call frame `idx`. -/
def bindParams (store : Store) (idx : Nat) (params : List Str) (args : List Value) :
    Store :=
  (params.zip args).foldl (fun st pa => envSet st idx pa.1 pa.2) store

mutual

/-- `eval(value, env)`: self-evaluating forms, symbol lookup, special forms
(`setq`, `fn`, `macro`) and application.  `none` = out of fuel. -/
def evalF : Nat → Value → Nat → Store → Option (Except EvalError Value × Store)
  | 0, _, _, _ => none
  | fuel + 1, v, env, store =>
      match v with
      | .nil => some (.ok v, store)
      | .boolean _ => some (.ok v, store)
      | .number _ => some (.ok v, store)
      | .str _ => some (.ok v, store)
      | .keyword _ => some (.ok v, store)
      | .symbol name =>
          match envGet store env name with
          | some val => some (.ok val, store)
          | none => some (.error (.unboundSymbol name), store)
      | .list items =>
          match items with
          | [] => some (.ok (.list []), store)
          | first :: _ =>
              match first with
              | .symbol name =>
                  if name = ("setq".toList) then evalSetq fuel items env store
                  else if name = ("fn".toList) then some (evalFn items env, store)
                  else if name = ("macro".toList) then some (evalMakro items env, store)
                  else applyFunction fuel items env store
              | _ => applyFunction fuel items env store
      | .vector items =>
          match evalEachF fuel items env store with
          | none => none
          | some (.error e, st) => some (.error e, st)
          | some (.ok vs, st) => some (.ok (.vector vs), st)
      | .mapV entries =>
          match evalPairsF fuel entries env store with
          | none => none
          | some (.error e, st) => some (.error e, st)
          | some (.ok ps, st) =>
              some (.ok (.mapV (ps.foldl (fun acc kv => mapInsert acc kv.1 kv.2) [])), st)
      | .setV items =>
          match evalEachF fuel items env store with
          | none => none
          | some (.error e, st) => some (.error e, st)
          | some (.ok vs, st) => some (.ok (.setV (vs.foldl setInsert [])), st)
      | .function _ _ _ _ _ => some (.ok v, store)
      | .makro _ _ _ => some (.ok v, store)
termination_by structural fuel _ _ _ => fuel

/-- The `setq` special form: arity 2, a symbol, evaluate, write the innermost
frame, return the value. -/
def evalSetq : Nat → List Value → Nat → Store → Option (Except EvalError Value × Store)
  | 0, _, _, _ => none
  | fuel + 1, items, env, store =>
      if items.length ≠ 3 then
        some (.error (.arityMismatch 2 (items.length - 1)), store)
      else
        match items with
        | [_, p1, p2] =>
            match p1 with
            | .symbol s =>
                match evalF fuel p2 env store with
                | none => none
                | some (.error e, st) => some (.error e, st)
                | some (.ok value, st) => some (.ok value, envSet st env s value)
            | _ => some (.error (.typeError ("symbol".toList) p1), store)
        | _ => some (.error (.arityMismatch 2 (items.length - 1)), store)
termination_by structural fuel _ _ _ => fuel

/-- `apply_function(items, env)`: evaluate the head, evaluate the arguments,
then apply a builtin directly, or check arity, allocate a frame whose outer is
the captured environment, bind parameters and evaluate the body. -/
def applyFunction : Nat → List Value → Nat → Store →
    Option (Except EvalError Value × Store)
  | 0, _, _, _ => none
  | fuel + 1, items, env, store =>
      match items with
      | [] => some (.error (.syntaxError ("Empty function application".toList)), store)
      | headv :: rest =>
          match evalF fuel headv env store with
          | none => none
          | some (.error e, st) => some (.error e, st)
          | some (.ok func, st1) =>
              match evalEachF fuel rest env st1 with
              | none => none
              | some (.error e, st) => some (.error e, st)
              | some (.ok args, st2) =>
                  match func with
                  | .function params body fenv isBuiltin builtinFn =>
                      if isBuiltin then
                        match builtinFn with
                        | some b =>
                            match runBuiltin b args with
                            | .ok val => some (.ok val, st2)
                            | .error e => some (.error e, st2)
                        | none =>
                            some (.error (.other
                              ("Built-in function has no implementation".toList)), st2)
                      else if params.length ≠ args.length then
                        some (.error (.arityMismatch params.length args.length), st2)
                      else
                        let st3 := st2 ++ [⟨[], some fenv⟩]
                        let st4 := bindParams st3 st2.length params args
                        evalBodyF fuel body st2.length st4
                  | .makro _ _ _ =>
                      some (.error (.other
                        ("Macro application not yet implemented".toList)), st2)
                  | _ => some (.error (.notCallable func), st2)
termination_by structural fuel _ _ _ => fuel

/-- Evaluate the elements of a list in order (arguments, vector and set
elements), failing at the first error. -/
def evalEachF : Nat → List Value → Nat → Store →
    Option (Except EvalError (List Value) × Store)
  | 0, _, _, _ => none
  | _ + 1, [], _, store => some (.ok [], store)
  | fuel + 1, x :: xs, env, store =>
      match evalF fuel x env store with
      | none => none
      | some (.error e, st) => some (.error e, st)
      | some (.ok v, st) =>
          match evalEachF fuel xs env st with
          | none => none
          | some (.error e, st') => some (.error e, st')
          | some (.ok vs, st') => some (.ok (v :: vs), st')
termination_by structural fuel _ _ _ => fuel

/-- Evaluate the key/value pairs of a map literal in order. -/
def evalPairsF : Nat → List (Value × Value) → Nat → Store →
    Option (Except EvalError (List (Value × Value)) × Store)
  | 0, _, _, _ => none
  | _ + 1, [], _, store => some (.ok [], store)
  | fuel + 1, kv :: rest, env, store =>
      match evalF fuel kv.1 env store with
      | none => none
      | some (.error e, st) => some (.error e, st)
      | some (.ok k, st) =>
          match evalF fuel kv.2 env st with
          | none => none
          | some (.error e, st') => some (.error e, st')
          | some (.ok v, st') =>
              match evalPairsF fuel rest env st' with
              | none => none
              | some (.error e, st'') => some (.error e, st'')
              | some (.ok ps, st'') => some (.ok ((k, v) :: ps), st'')
termination_by structural fuel _ _ _ => fuel

/-- Evaluate a closure body in order; the value of the last expression (`Nil`
for an empty body). -/
def evalBodyF : Nat → List Value → Nat → Store →
    Option (Except EvalError Value × Store)
  | 0, _, _, _ => none
  | _ + 1, [], _, store => some (.ok .nil, store)
  | fuel + 1, e :: rest, env, store =>
      match evalF fuel e env store with
      | none => none
      | some (.error er, st) => some (.error er, st)
      | some (.ok val, st) =>
          match rest with
          | [] => some (.ok val, st)
          | _ => evalBodyF fuel rest env st
termination_by structural fuel _ _ _ => fuel

end

/-- `eval_str(input, env)` from src/lib.rs: read, then eval. -/
def evalStr (fuel : Nat) (input : Str) (env : Nat) (store : Store) :
    Option (Except EvalError Value × Store) :=
  match readStr fuel input with
  | none => none
  | some (.error e) => some (.error e, store)
  | some (.ok v) => evalF fuel v env store

/-- `eval_str` on several inputs in order in the same environment, stopping at
the first error (each Rust test calls `eval_str` once per form). -/
def evalSeqStr (fuel : Nat) (inputs : List Str) (env : Nat) (store : Store) :
    Option (Except EvalError Value × Store) :=
  match inputs with
  | [] => some (.ok .nil, store)
  | [s] => evalStr fuel s env store
  | s :: rest =>
      match evalStr fuel s env store with
      | none => none
      | some (.error e, st) => some (.error e, st)
      | some (.ok _, st) => evalSeqStr fuel rest env st

/-- `true` unless the list starts with the symbol `setq` (the head test of the
special-form dispatch in `eval`). -/
def noSetqHeadB : List Value → Bool
  | .symbol s :: _ => if s = ("setq".toList) then false else true
  | _ => true

mutual

/-- The value contains no list whose head is the symbol `setq`.  Function and
makro bodies are not inspected: evaluating such a value returns it unchanged,
and a body invoked through application runs in a freshly allocated frame. -/
def noSetqB : Value → Bool
  | .list items => noSetqHeadB items && noSetqListB items
  | .vector items => noSetqListB items
  | .mapV entries => noSetqPairsB entries
  | .setV items => noSetqListB items
  | _ => true
termination_by structural v => v

def noSetqListB : List Value → Bool
  | [] => true
  | v :: vs => noSetqB v && noSetqListB vs
termination_by structural vs => vs

def noSetqPairsB : List (Value × Value) → Bool
  | [] => true
  | kv :: rest => noSetqB kv.1 && noSetqB kv.2 && noSetqPairsB rest
termination_by structural ps => ps

end

/-! ## Frame-effect invariants of the evaluator

`EInv env store store'`: the store only grew, and every frame that already
existed — except possibly the frame `env` itself (the only frame `setq` can
write) — is unchanged. -/

/-- Evaluation can touch existing frames only at `env`. -/
def EInv (env : Nat) (store store' : Store) : Prop :=
  store.length ≤ store'.length ∧
    ∀ i < store.length, i ≠ env → store'.get? i = store.get? i

/-- Evaluation of a `setq`-free value leaves every existing frame unchanged. -/
def SInv (store store' : Store) : Prop :=
  store.length ≤ store'.length ∧ ∀ i < store.length, store'.get? i = store.get? i

theorem einvRefl {env : Nat} {store : Store} : EInv env store store :=
  ⟨Nat.le.refl, fun _ _ _ => rfl⟩

theorem einvTrans {env : Nat} {a b c : Store} (h1 : EInv env a b) (h2 : EInv env b c) :
    EInv env a c := by
  refine ⟨h1.1.trans h2.1, fun i hi hne => ?_⟩
  rw [h2.2 i (lt_of_lt_of_le hi h1.1) hne, h1.2 i hi hne]

theorem sinvRefl {store : Store} : SInv store store := ⟨Nat.le.refl, fun _ _ => rfl⟩

theorem sinvTrans {a b c : Store} (h1 : SInv a b) (h2 : SInv b c) : SInv a c := by
  refine ⟨h1.1.trans h2.1, fun i hi => ?_⟩
  rw [h2.2 i (lt_of_lt_of_le hi h1.1), h1.2 i hi]

theorem sinv_einv {env : Nat} {a b : Store} (h : SInv a b) : EInv env a b :=
  ⟨h.1, fun i hi _ => h.2 i hi⟩

theorem envSet_length (store : Store) (r : Nat) (k : Str) (v : Value) :
    (envSet store r k v).length = store.length := by
  unfold envSet
  split <;> simp

theorem envSet_get_ne (store : Store) (r : Nat) (k : Str) (v : Value)
    (i : Nat) (hne : i ≠ r) : (envSet store r k v).get? i = store.get? i := by
  unfold envSet
  split
  · rfl
  · rw [List.get?_set_ne _ _ (fun hh => hne hh.symm)]

theorem einv_envSet {env : Nat} (store : Store) (k : Str) (v : Value) :
    EInv env store (envSet store env k v) := by
  refine ⟨by rw [envSet_length], fun i _ hne => envSet_get_ne store env k v i hne⟩

theorem bindParams_length (store : Store) (idx : Nat) (params : List Str)
    (args : List Value) : (bindParams store idx params args).length = store.length := by
  unfold bindParams
  generalize params.zip args = l
  induction l generalizing store with
  | nil => rfl
  | cons pa rest ih => simp [List.foldl_cons, ih, envSet_length]

theorem bindParams_get_ne (store : Store) (idx : Nat) (params : List Str)
    (args : List Value) (i : Nat) (hne : i ≠ idx) :
    (bindParams store idx params args).get? i = store.get? i := by
  unfold bindParams
  generalize params.zip args = l
  induction l generalizing store with
  | nil => rfl
  | cons pa rest ih =>
      simp only [List.foldl_cons]
      rw [ih (envSet store idx pa.1 pa.2), envSet_get_ne _ _ _ _ _ hne]

/-- Allocating the call frame and binding the parameters touches no existing
frame and grows the store by one. -/
theorem sinv_alloc_bind (store : Store) (fenv : Nat) (params : List Str)
    (args : List Value) :
    SInv store (bindParams (store ++ [⟨[], some fenv⟩]) store.length params args) := by
  constructor
  · rw [bindParams_length]
    simp
  · intro i hi
    rw [bindParams_get_ne _ _ _ _ _ (Nat.ne_of_lt hi)]
    exact List.get?_append hi

/-- Composing a call's argument phase with its body phase: the body runs in a
freshly allocated frame, which lies outside the caller's store. -/
theorem einv_call {env fenv : Nat} {store st2 st' : Store} {params : List Str}
    {args : List Value} (e12 : EInv env store st2)
    (bodyInv : EInv st2.length
      (bindParams (st2 ++ [⟨[], some fenv⟩]) st2.length params args) st') :
    EInv env store st' := by
  have sAlloc := sinv_alloc_bind st2 fenv params args
  refine ⟨(e12.1.trans sAlloc.1).trans bodyInv.1, ?_⟩
  intro i hi hne
  have hi2 : i < st2.length := lt_of_lt_of_le hi e12.1
  have hi4 := lt_of_lt_of_le hi2 sAlloc.1
  rw [bodyInv.2 i hi4 (Nat.ne_of_lt hi2), sAlloc.2 i hi2, e12.2 i hi hne]

/-- As `einv_call`, but when the argument phase is already known not to touch
any existing frame. -/
theorem sinv_call {fenv : Nat} {store st2 st' : Store} {params : List Str}
    {args : List Value} (s12 : SInv store st2)
    (bodyInv : EInv st2.length
      (bindParams (st2 ++ [⟨[], some fenv⟩]) st2.length params args) st') :
    SInv store st' := by
  have sAlloc := sinv_alloc_bind st2 fenv params args
  refine ⟨(s12.1.trans sAlloc.1).trans bodyInv.1, ?_⟩
  intro i hi
  have hi2 : i < st2.length := lt_of_lt_of_le hi s12.1
  have hi4 := lt_of_lt_of_le hi2 sAlloc.1
  rw [bodyInv.2 i hi4 (Nat.ne_of_lt hi2), sAlloc.2 i hi2, s12.2 i hi]

/-- General frame-effect theorem: whatever value is evaluated, the store only
grows, and the only preexisting frame that can change is the frame `env` the
evaluation was started in (the target of `setq`); a call's own frame is always
freshly allocated. -/
theorem evalFns_einv : ∀ fuel : Nat,
    (∀ v env store r st', evalF fuel v env store = some (r, st') → EInv env store st') ∧
    (∀ items env store r st', evalSetq fuel items env store = some (r, st') →
      EInv env store st') ∧
    (∀ items env store r st', applyFunction fuel items env store = some (r, st') →
      EInv env store st') ∧
    (∀ xs env store r st', evalEachF fuel xs env store = some (r, st') →
      EInv env store st') ∧
    (∀ ps env store r st', evalPairsF fuel ps env store = some (r, st') →
      EInv env store st') ∧
    (∀ body env store r st', evalBodyF fuel body env store = some (r, st') →
      EInv env store st') := by
  intro fuel
  induction fuel with
  | zero =>
      refine ⟨?_, ?_, ?_, ?_, ?_, ?_⟩ <;> intros <;>
        simp_all [evalF, evalSetq, applyFunction, evalEachF, evalPairsF, evalBodyF]
  | succ fuel ih =>
      obtain ⟨ihE, ihSetq, ihApply, ihEach, ihPairs, ihBody⟩ := ih
      refine ⟨?_, ?_, ?_, ?_, ?_, ?_⟩
      · -- evalF
        intro v env store r st' h
        cases v
        all_goals
          try (rw [evalF] at h
               simp only [Option.some.injEq, Prod.mk.injEq] at h
               obtain ⟨-, rfl⟩ := h
               exact einvRefl)
        case symbol name =>
          rw [evalF] at h
          split at h <;>
            (simp only [Option.some.injEq, Prod.mk.injEq] at h
             obtain ⟨-, rfl⟩ := h
             exact einvRefl)
        case list items =>
          cases items with
          | nil =>
              rw [evalF] at h
              simp only [Option.some.injEq, Prod.mk.injEq] at h
              obtain ⟨-, rfl⟩ := h
              exact einvRefl
          | cons first rest =>
              cases first
              case symbol name =>
                rw [evalF] at h
                split at h
                · exact ihSetq _ _ _ _ _ h
                · split at h
                  · simp only [Option.some.injEq, Prod.mk.injEq] at h
                    obtain ⟨-, rfl⟩ := h
                    exact einvRefl
                  · split at h
                    · simp only [Option.some.injEq, Prod.mk.injEq] at h
                      obtain ⟨-, rfl⟩ := h
                      exact einvRefl
                    · exact ihApply _ _ _ _ _ h
              all_goals
                simp only [evalF] at h
              all_goals
                exact ihApply _ _ _ _ _ h
        case vector items =>
          rw [evalF] at h
          split at h
          · exact absurd h (by simp)
          · rename_i e st heq
            simp only [Option.some.injEq, Prod.mk.injEq] at h
            obtain ⟨-, rfl⟩ := h
            exact ihEach _ _ _ _ _ heq
          · rename_i vs st heq
            simp only [Option.some.injEq, Prod.mk.injEq] at h
            obtain ⟨-, rfl⟩ := h
            exact ihEach _ _ _ _ _ heq
        case mapV entries =>
          rw [evalF] at h
          split at h
          · exact absurd h (by simp)
          · rename_i e st heq
            simp only [Option.some.injEq, Prod.mk.injEq] at h
            obtain ⟨-, rfl⟩ := h
            exact ihPairs _ _ _ _ _ heq
          · rename_i ps st heq
            simp only [Option.some.injEq, Prod.mk.injEq] at h
            obtain ⟨-, rfl⟩ := h
            exact ihPairs _ _ _ _ _ heq
        case setV items =>
          rw [evalF] at h
          split at h
          · exact absurd h (by simp)
          · rename_i e st heq
            simp only [Option.some.injEq, Prod.mk.injEq] at h
            obtain ⟨-, rfl⟩ := h
            exact ihEach _ _ _ _ _ heq
          · rename_i vs st heq
            simp only [Option.some.injEq, Prod.mk.injEq] at h
            obtain ⟨-, rfl⟩ := h
            exact ihEach _ _ _ _ _ heq
      · -- evalSetq
        intro items env store r st' h
        rcases items with _ | ⟨a, _ | ⟨b, _ | ⟨c, _ | ⟨d, rest⟩⟩⟩⟩
        · rw [evalSetq] at h
          · rw [if_pos (by simp)] at h
            simp only [Option.some.injEq, Prod.mk.injEq] at h
            obtain ⟨-, rfl⟩ := h
            exact einvRefl
          · intro _ _ _ hc
            simp at hc
        · rw [evalSetq] at h
          · rw [if_pos (by simp)] at h
            simp only [Option.some.injEq, Prod.mk.injEq] at h
            obtain ⟨-, rfl⟩ := h
            exact einvRefl
          · intro _ _ _ hc
            simp at hc
        · rw [evalSetq] at h
          · rw [if_pos (by simp)] at h
            simp only [Option.some.injEq, Prod.mk.injEq] at h
            obtain ⟨-, rfl⟩ := h
            exact einvRefl
          · intro _ _ _ hc
            simp at hc
        · cases b
          case symbol s =>
            rw [evalSetq] at h
            split at h
            · rename_i hlen
              exact (hlen (by simp)).elim
            · split at h
              · exact absurd h (by simp)
              · rename_i e st heq
                simp only [Option.some.injEq, Prod.mk.injEq] at h
                obtain ⟨-, rfl⟩ := h
                exact ihE _ _ _ _ _ heq
              · rename_i value st heq
                simp only [Option.some.injEq, Prod.mk.injEq] at h
                obtain ⟨-, rfl⟩ := h
                exact einvTrans (ihE _ _ _ _ _ heq) (einv_envSet st _ _)
          all_goals
            simp only [evalSetq] at h
          all_goals
            try rw [if_neg (by simp)] at h
          all_goals
            simp only [Option.some.injEq, Prod.mk.injEq] at h
          all_goals
            obtain ⟨-, rfl⟩ := h
          all_goals
            exact einvRefl
        · rw [evalSetq] at h
          · rw [if_pos (by simp only [List.length_cons] ; omega)] at h
            simp only [Option.some.injEq, Prod.mk.injEq] at h
            obtain ⟨-, rfl⟩ := h
            exact einvRefl
          · intro _ _ _ hc
            simp at hc
      · -- applyFunction
        intro items env store r st' h
        cases items with
        | nil =>
            rw [applyFunction] at h
            simp only [Option.some.injEq, Prod.mk.injEq] at h
            obtain ⟨-, rfl⟩ := h
            exact einvRefl
        | cons headv rest =>
            rw [applyFunction] at h
            split at h
            · exact absurd h (by simp)
            · rename_i e st heq
              simp only [Option.some.injEq, Prod.mk.injEq] at h
              obtain ⟨-, rfl⟩ := h
              exact ihE _ _ _ _ _ heq
            · rename_i func st1 heq1
              have e1 : EInv env store st1 := ihE _ _ _ _ _ heq1
              split at h
              · exact absurd h (by simp)
              · rename_i e st heq2
                simp only [Option.some.injEq, Prod.mk.injEq] at h
                obtain ⟨-, rfl⟩ := h
                exact einvTrans e1 (ihEach _ _ _ _ _ heq2)
              · rename_i args st2 heq2
                have e2 : EInv env store st2 := einvTrans e1 (ihEach _ _ _ _ _ heq2)
                split at h
                · -- function value
                  split at h
                  · split at h
                    · split at h <;>
                        (simp only [Option.some.injEq, Prod.mk.injEq] at h
                         obtain ⟨-, rfl⟩ := h
                         exact e2)
                    · simp only [Option.some.injEq, Prod.mk.injEq] at h
                      obtain ⟨-, rfl⟩ := h
                      exact e2
                  · split at h
                    · simp only [Option.some.injEq, Prod.mk.injEq] at h
                      obtain ⟨-, rfl⟩ := h
                      exact e2
                    · exact einv_call e2 (ihBody _ _ _ _ _ h)
                · simp only [Option.some.injEq, Prod.mk.injEq] at h
                  obtain ⟨-, rfl⟩ := h
                  exact e2
                · simp only [Option.some.injEq, Prod.mk.injEq] at h
                  obtain ⟨-, rfl⟩ := h
                  exact e2
      · -- evalEachF
        intro xs env store r st' h
        cases xs with
        | nil =>
            rw [evalEachF] at h
            simp only [Option.some.injEq, Prod.mk.injEq] at h
            obtain ⟨-, rfl⟩ := h
            exact einvRefl
        | cons x rest =>
            rw [evalEachF] at h
            split at h
            · exact absurd h (by simp)
            · rename_i e st heq
              simp only [Option.some.injEq, Prod.mk.injEq] at h
              obtain ⟨-, rfl⟩ := h
              exact ihE _ _ _ _ _ heq
            · rename_i v st heq
              have e1 : EInv env store st := ihE _ _ _ _ _ heq
              split at h
              · exact absurd h (by simp)
              · rename_i e st2 heq2
                simp only [Option.some.injEq, Prod.mk.injEq] at h
                obtain ⟨-, rfl⟩ := h
                exact einvTrans e1 (ihEach _ _ _ _ _ heq2)
              · rename_i vs st2 heq2
                simp only [Option.some.injEq, Prod.mk.injEq] at h
                obtain ⟨-, rfl⟩ := h
                exact einvTrans e1 (ihEach _ _ _ _ _ heq2)
      · -- evalPairsF
        intro ps env store r st' h
        cases ps with
        | nil =>
            rw [evalPairsF] at h
            simp only [Option.some.injEq, Prod.mk.injEq] at h
            obtain ⟨-, rfl⟩ := h
            exact einvRefl
        | cons kv rest =>
            rw [evalPairsF] at h
            split at h
            · exact absurd h (by simp)
            · rename_i e st heq
              simp only [Option.some.injEq, Prod.mk.injEq] at h
              obtain ⟨-, rfl⟩ := h
              exact ihE _ _ _ _ _ heq
            · rename_i k st heq
              have e1 : EInv env store st := ihE _ _ _ _ _ heq
              split at h
              · exact absurd h (by simp)
              · rename_i e st2 heq2
                simp only [Option.some.injEq, Prod.mk.injEq] at h
                obtain ⟨-, rfl⟩ := h
                exact einvTrans e1 (ihE _ _ _ _ _ heq2)
              · rename_i v st2 heq2
                have e2 : EInv env store st2 := einvTrans e1 (ihE _ _ _ _ _ heq2)
                split at h
                · exact absurd h (by simp)
                · rename_i e st3 heq3
                  simp only [Option.some.injEq, Prod.mk.injEq] at h
                  obtain ⟨-, rfl⟩ := h
                  exact einvTrans e2 (ihPairs _ _ _ _ _ heq3)
                · rename_i ps2 st3 heq3
                  simp only [Option.some.injEq, Prod.mk.injEq] at h
                  obtain ⟨-, rfl⟩ := h
                  exact einvTrans e2 (ihPairs _ _ _ _ _ heq3)
      · -- evalBodyF
        intro body env store r st' h
        cases body with
        | nil =>
            rw [evalBodyF] at h
            simp only [Option.some.injEq, Prod.mk.injEq] at h
            obtain ⟨-, rfl⟩ := h
            exact einvRefl
        | cons e rest =>
            rw [evalBodyF] at h
            split at h
            · exact absurd h (by simp)
            · rename_i er st heq
              simp only [Option.some.injEq, Prod.mk.injEq] at h
              obtain ⟨-, rfl⟩ := h
              exact ihE _ _ _ _ _ heq
            · rename_i val st heq
              have e1 : EInv env store st := ihE _ _ _ _ _ heq
              split at h
              · simp only [Option.some.injEq, Prod.mk.injEq] at h
                obtain ⟨-, rfl⟩ := h
                exact e1
              · exact einvTrans e1 (ihBody _ _ _ _ _ h)

/-- Under the no-`setq` side condition, evaluation leaves every preexisting
frame of the store unchanged (the sweep behind C10): `setq` is never reached
in the current frame, and closure bodies only write freshly allocated
frames. -/
theorem evalFns_sinv : ∀ fuel : Nat,
    (∀ v env store r st', noSetqB v = true → evalF fuel v env store = some (r, st') →
      SInv store st') ∧
    (∀ items env store r st', noSetqListB items = true →
      applyFunction fuel items env store = some (r, st') → SInv store st') ∧
    (∀ xs env store r st', noSetqListB xs = true →
      evalEachF fuel xs env store = some (r, st') → SInv store st') ∧
    (∀ ps env store r st', noSetqPairsB ps = true →
      evalPairsF fuel ps env store = some (r, st') → SInv store st') := by
  intro fuel
  induction fuel with
  | zero =>
      refine ⟨?_, ?_, ?_, ?_⟩ <;> intros <;>
        simp_all [evalF, applyFunction, evalEachF, evalPairsF]
  | succ fuel ih =>
      obtain ⟨ihE, ihApply, ihEach, ihPairs⟩ := ih
      refine ⟨?_, ?_, ?_, ?_⟩
      · -- evalF
        intro v env store r st' hns h
        cases v
        all_goals
          try (rw [evalF] at h
               simp only [Option.some.injEq, Prod.mk.injEq] at h
               obtain ⟨-, rfl⟩ := h
               exact sinvRefl)
        case symbol name =>
          rw [evalF] at h
          split at h <;>
            (simp only [Option.some.injEq, Prod.mk.injEq] at h
             obtain ⟨-, rfl⟩ := h
             exact sinvRefl)
        case list items =>
          cases items with
          | nil =>
              rw [evalF] at h
              simp only [Option.some.injEq, Prod.mk.injEq] at h
              obtain ⟨-, rfl⟩ := h
              exact sinvRefl
          | cons first rest =>
              cases first
              case symbol name =>
                simp only [noSetqB, noSetqHeadB, Bool.and_eq_true] at hns
                rw [evalF] at h
                split at h
                · rename_i hset
                  rw [if_pos hset] at hns
                  simp at hns
                · split at h
                  · simp only [Option.some.injEq, Prod.mk.injEq] at h
                    obtain ⟨-, rfl⟩ := h
                    exact sinvRefl
                  · split at h
                    · simp only [Option.some.injEq, Prod.mk.injEq] at h
                      obtain ⟨-, rfl⟩ := h
                      exact sinvRefl
                    · refine ihApply _ _ _ _ _ ?_ h
                      simp only [noSetqListB, noSetqB, noSetqHeadB, Bool.and_eq_true]
                      refine ⟨?_, hns.2⟩
                      simp_all
              all_goals
                simp only [noSetqB, noSetqHeadB, Bool.and_eq_true] at hns
              all_goals
                simp only [evalF] at h
              all_goals
                refine ihApply _ _ _ _ _ ?_ h
              all_goals
                simp_all [noSetqListB, noSetqB, noSetqHeadB]
        case vector items =>
          simp only [noSetqB] at hns
          rw [evalF] at h
          split at h
          · exact absurd h (by simp)
          · rename_i e st heq
            simp only [Option.some.injEq, Prod.mk.injEq] at h
            obtain ⟨-, rfl⟩ := h
            exact ihEach _ _ _ _ _ hns heq
          · rename_i vs st heq
            simp only [Option.some.injEq, Prod.mk.injEq] at h
            obtain ⟨-, rfl⟩ := h
            exact ihEach _ _ _ _ _ hns heq
        case mapV entries =>
          simp only [noSetqB] at hns
          rw [evalF] at h
          split at h
          · exact absurd h (by simp)
          · rename_i e st heq
            simp only [Option.some.injEq, Prod.mk.injEq] at h
            obtain ⟨-, rfl⟩ := h
            exact ihPairs _ _ _ _ _ hns heq
          · rename_i ps st heq
            simp only [Option.some.injEq, Prod.mk.injEq] at h
            obtain ⟨-, rfl⟩ := h
            exact ihPairs _ _ _ _ _ hns heq
        case setV items =>
          simp only [noSetqB] at hns
          rw [evalF] at h
          split at h
          · exact absurd h (by simp)
          · rename_i e st heq
            simp only [Option.some.injEq, Prod.mk.injEq] at h
            obtain ⟨-, rfl⟩ := h
            exact ihEach _ _ _ _ _ hns heq
          · rename_i vs st heq
            simp only [Option.some.injEq, Prod.mk.injEq] at h
            obtain ⟨-, rfl⟩ := h
            exact ihEach _ _ _ _ _ hns heq
      · -- applyFunction
        intro items env store r st' hns h
        cases items with
        | nil =>
            rw [applyFunction] at h
            simp only [Option.some.injEq, Prod.mk.injEq] at h
            obtain ⟨-, rfl⟩ := h
            exact sinvRefl
        | cons headv rest =>
            simp only [noSetqListB, Bool.and_eq_true] at hns
            obtain ⟨hns1, hns2⟩ := hns
            rw [applyFunction] at h
            split at h
            · exact absurd h (by simp)
            · rename_i e st heq
              simp only [Option.some.injEq, Prod.mk.injEq] at h
              obtain ⟨-, rfl⟩ := h
              exact ihE _ _ _ _ _ hns1 heq
            · rename_i func st1 heq1
              have s1 : SInv store st1 := ihE _ _ _ _ _ hns1 heq1
              split at h
              · exact absurd h (by simp)
              · rename_i e st heq2
                simp only [Option.some.injEq, Prod.mk.injEq] at h
                obtain ⟨-, rfl⟩ := h
                exact sinvTrans s1 (ihEach _ _ _ _ _ hns2 heq2)
              · rename_i args st2 heq2
                have s2 : SInv store st2 := sinvTrans s1 (ihEach _ _ _ _ _ hns2 heq2)
                split at h
                · -- function value
                  split at h
                  · split at h
                    · split at h <;>
                        (simp only [Option.some.injEq, Prod.mk.injEq] at h
                         obtain ⟨-, rfl⟩ := h
                         exact s2)
                    · simp only [Option.some.injEq, Prod.mk.injEq] at h
                      obtain ⟨-, rfl⟩ := h
                      exact s2
                  · split at h
                    · simp only [Option.some.injEq, Prod.mk.injEq] at h
                      obtain ⟨-, rfl⟩ := h
                      exact s2
                    · exact sinv_call s2 ((evalFns_einv fuel).2.2.2.2.2 _ _ _ _ _ h)
                · simp only [Option.some.injEq, Prod.mk.injEq] at h
                  obtain ⟨-, rfl⟩ := h
                  exact s2
                · simp only [Option.some.injEq, Prod.mk.injEq] at h
                  obtain ⟨-, rfl⟩ := h
                  exact s2
      · -- evalEachF
        intro xs env store r st' hns h
        cases xs with
        | nil =>
            rw [evalEachF] at h
            simp only [Option.some.injEq, Prod.mk.injEq] at h
            obtain ⟨-, rfl⟩ := h
            exact sinvRefl
        | cons x rest =>
            simp only [noSetqListB, Bool.and_eq_true] at hns
            obtain ⟨hns1, hns2⟩ := hns
            rw [evalEachF] at h
            split at h
            · exact absurd h (by simp)
            · rename_i e st heq
              simp only [Option.some.injEq, Prod.mk.injEq] at h
              obtain ⟨-, rfl⟩ := h
              exact ihE _ _ _ _ _ hns1 heq
            · rename_i v st heq
              have s1 : SInv store st := ihE _ _ _ _ _ hns1 heq
              split at h
              · exact absurd h (by simp)
              · rename_i e st2 heq2
                simp only [Option.some.injEq, Prod.mk.injEq] at h
                obtain ⟨-, rfl⟩ := h
                exact sinvTrans s1 (ihEach _ _ _ _ _ hns2 heq2)
              · rename_i vs st2 heq2
                simp only [Option.some.injEq, Prod.mk.injEq] at h
                obtain ⟨-, rfl⟩ := h
                exact sinvTrans s1 (ihEach _ _ _ _ _ hns2 heq2)
      · -- evalPairsF
        intro ps env store r st' hns h
        cases ps with
        | nil =>
            rw [evalPairsF] at h
            simp only [Option.some.injEq, Prod.mk.injEq] at h
            obtain ⟨-, rfl⟩ := h
            exact sinvRefl
        | cons kv rest =>
            simp only [noSetqPairsB, Bool.and_eq_true] at hns
            obtain ⟨⟨hk, hv⟩, hrest⟩ := hns
            rw [evalPairsF] at h
            split at h
            · exact absurd h (by simp)
            · rename_i e st heq
              simp only [Option.some.injEq, Prod.mk.injEq] at h
              obtain ⟨-, rfl⟩ := h
              exact ihE _ _ _ _ _ hk heq
            · rename_i k st heq
              have s1 : SInv store st := ihE _ _ _ _ _ hk heq
              split at h
              · exact absurd h (by simp)
              · rename_i e st2 heq2
                simp only [Option.some.injEq, Prod.mk.injEq] at h
                obtain ⟨-, rfl⟩ := h
                exact sinvTrans s1 (ihE _ _ _ _ _ hv heq2)
              · rename_i v st2 heq2
                have s2 : SInv store st2 := sinvTrans s1 (ihE _ _ _ _ _ hv heq2)
                split at h
                · exact absurd h (by simp)
                · rename_i e st3 heq3
                  simp only [Option.some.injEq, Prod.mk.injEq] at h
                  obtain ⟨-, rfl⟩ := h
                  exact sinvTrans s2 (ihPairs _ _ _ _ _ hrest heq3)
                · rename_i ps2 st3 heq3
                  simp only [Option.some.injEq, Prod.mk.injEq] at h
                  obtain ⟨-, rfl⟩ := h
                  exact sinvTrans s2 (ihPairs _ _ _ _ _ hrest heq3)

/-! ## Claim support lemmas -/

theorem takeWhileChars_all (p : Char → Bool) (ds : Str) (h : ∀ c ∈ ds, p c = true) :
    takeWhileChars p ds = (ds, []) := by
  induction ds with
  | nil => rfl
  | cons c cs ih =>
      have hc : p c = true := h c (List.mem_cons_self c cs)
      have ih' := ih (fun x hx => h x (List.mem_cons_of_mem c hx))
      simp [takeWhileChars, hc, ih']

theorem isAsciiDigit_ne_sign {c : Char} (h : isAsciiDigit c = true) :
    ¬ (c = '+') ∧ ¬ (c = '-') := by
  constructor <;> rintro rfl <;> exact absurd h (by decide)

/-- `f64::from_str` on an all-decimal-digit string is the digits' value. -/
theorem parseF64_digits (ds : Str) (h1 : ds ≠ []) (h2 : ∀ c ∈ ds, isAsciiDigit c = true) :
    parseF64 ds = some ((digitsToNat ds : ℚ)) := by
  cases ds with
  | nil => exact absurd rfl h1
  | cons d t =>
      have hd := h2 d (List.mem_cons_self d t)
      obtain ⟨hp, hm⟩ := isAsciiDigit_ne_sign hd
      have htw := takeWhileChars_all isAsciiDigit (d :: t) h2
      simp [parseF64, hp, hm, htw, parseF64Exp, parseF64Val]

/-- `f64::from_str` rejects every `0x…` text: after the leading `0` the `x` is
not part of the float grammar. -/
theorem parseF64_hex (ds : Str) : parseF64 ('0' :: 'x' :: ds) = none := rfl

/-! ## The claims -/

/-- C1 (amended): the token texts do not concatenate to the input — the lexer
sets each token's start after `skip_whitespace`, so the whitespace before a
token belongs to no token.  What does hold: there is a whitespace-only gap per
token such that interleaving gaps with token texts reconstructs the input. -/
theorem C1_tokenize_interleaves_whitespace (s : Str) :
    ∃ gaps : List Str, gaps.length = (tokenize s).length ∧
      (∀ g ∈ gaps, ∀ c ∈ g, rustIsWhitespace c = true) ∧
      (List.zipWith (· ++ ·) gaps ((tokenize s).map Token.text)).flatten = s := by
  simpa [tokenize] using
    tokenizeF_interleaving (s.length + 1) ⟨s, 0⟩ (Nat.lt_succ_self s.length)

/-- C1 counterexample: on input `" a"` the concatenated non-`Eof` token texts
are `"a"`, not `" a"` — the leading whitespace byte is lost. -/
theorem C1_tokenize_not_lossless :
    (((tokenize (" a".toList)).filter (fun t => t.kind ≠ TokenKind.Eof)).map
      Token.text).flatten ≠ " a".toList := by decide

/-- C2 (amended): whenever `parse` returns a tree, the in-order concatenation
of its leaf text equals the concatenated token texts of the input (the input
with inter-token whitespace removed, per C1), and the root's byte range is
`[0, len)` of that text — not of `s` itself. -/
theorem C2_parse_text_and_span (fuel : Nat) (s : Str) (t : SyntaxElem)
    (h : parseTop fuel s = some t) :
    elemText t = tokensText (tokenize s) ∧
      rootSpan t = (0, utf8Len (tokensText (tokenize s))) := by
  have hs := parseTop_spec fuel s t h
  exact ⟨hs.1, by rw [rootSpan, hs.1]⟩

/-- C2 counterexample: parsing `" 1"` yields a tree whose leaf text is `"1"`,
so the CST is not lossless and the root range is `[0, 1)`, not `[0, 2)`. -/
theorem C2_cst_not_lossless :
    (parseTop 32 (" 1".toList)).map elemText ≠ some (" 1".toList) := by decide

/-- C2 witness: at input `"1"` the parse succeeds and the amended equation is
discharged at that concrete tree. -/
theorem C2_parse_text_witness :
    (parseTop 32 ("1".toList)).map elemText =
      some (tokensText (tokenize ("1".toList))) := by
  obtain ⟨t, ht⟩ : ∃ t, parseTop 32 ("1".toList) = some t := ⟨_, rfl⟩
  rw [ht]
  exact congrArg some (C2_parse_text_and_span 32 ("1".toList) t ht).1

/-- C3: `parse(")")` never returns, whatever the fuel — on a stray closing
delimiter `parse_form` records an error without consuming the token and
`skip_until_delimiter` stops at that same closing delimiter, so the `!at_end`
loop of `Parser::parse` makes no progress. -/
theorem C3_parse_rparen_diverges : ∀ fuel : Nat, parseTop fuel (")".toList) = none := by
  intro fuel
  have h := parseLoop_rparen_stuck fuel
  simp only [parseTop]
  rw [h]

/-- C4: there is no `quote` special form in `eval` — evaluating `(quote 1)` in
the standard environment is an ordinary application whose head lookup fails
with `UnboundSymbol("quote")` instead of returning `1` unevaluated. -/
theorem C4_quote_is_unbound :
    evalStr 32 ("(quote 1)".toList) 0 standardEnv =
      some (.error (.unboundSymbol ("quote".toList)), standardEnv) := by
  with_unfolding_all rfl

/-- C5 (amended): `read` does not fail on `Error` nodes — it has no `Error`
arm and the catch-all processes their children transparently.  What does hold:
a tree `parse` returns never contains an `Error` composite node (the parser's
error paths skip `finish_node`), and on recovered input such as `"@"` (an
error token, invisible to `children()`) `read_str` succeeds. -/
theorem C5_error_nodes :
    (∀ fuel s t, parseTop fuel s = some t → noErrNodeB t = true) ∧
      readStr 32 ("@".toList) = some (.ok (.list [])) :=
  ⟨fun fuel s t h => (parseTop_spec fuel s t h).2, rfl⟩

/-- C5 counterexample: a tree that is itself an `Error` node reads back as
`Ok(Nil)`, not as a `SyntaxError`. -/
theorem C5_error_node_reads_ok :
    noErrNodeB (.node .Error []) = false ∧
      readF 2 (.node .Error []) = some (.ok .nil) := ⟨by decide, rfl⟩

/-- C5 witness: the no-`Error`-node component discharged at the concrete
parse of `"1"`, with the `"@"` component restated. -/
theorem C5_error_nodes_witness :
    (parseTop 32 ("1".toList)).map noErrNodeB = some true ∧
      readStr 32 ("@".toList) = some (.ok (.list [])) := by
  constructor
  · obtain ⟨t, ht⟩ : ∃ t, parseTop 32 ("1".toList) = some t := ⟨_, rfl⟩
    rw [ht]
    exact congrArg some (C5_error_nodes.1 32 ("1".toList) t ht)
  · exact C5_error_nodes.2

/-- C6: `read_str` on a quasiquoted form drops the `unquote` wrapper — the
parser wraps `~x` in an `Unquote` node, but `read` matches the `Comma` kind
(which no parser path produces), so the `Unquote` node falls to the catch-all
and is unwrapped to `x`: the result is `(quasiquote (1 2 x))`, not
`(quasiquote (1 2 (unquote x)))`. -/
theorem C6_unquote_wrapper_dropped :
    readStr 32 ("\x60(1 2 ~x)".toList) =
      some (.ok (.list [.symbol ("quasiquote".toList),
        .list [.number 1, .number 2, .symbol ("x".toList)]])) := by
  with_unfolding_all rfl

/-- C7 (amended): `read` of a `NumberLit` parses the node text with
`f64::from_str`, which accepts decimal notation — an all-decimal-digit text
reads as its numeric value — but rejects the hex `0x…` notation the lexer
tokenizes, producing `SyntaxError("Invalid number: …")` instead of the hex
value. -/
theorem C7_numberlit_decimal_only :
    (∀ (fuel : Nat) (ds : Str), ds ≠ [] → (∀ c ∈ ds, isAsciiDigit c = true) →
      readF (fuel + 1) (.node .NumberLit [.tok .Number ds]) =
        some (.ok (.number (digitsToNat ds)))) ∧
    (∀ (fuel : Nat) (ds : Str),
      readF (fuel + 1) (.node .NumberLit [.tok .Number ('0' :: 'x' :: ds)]) =
        some (.error (.syntaxError (("Invalid number: ".toList) ++ '0' :: 'x' :: ds)))) := by
  constructor
  · intro fuel ds h1 h2
    rw [readF]
    have he : elemText (.node SyntaxKind.NumberLit [.tok .Number ds]) = ds := by
      simp [elemText, elemsText]
    rw [he, parseF64_digits ds h1 h2]
  · intro fuel ds
    rw [readF]
    have he : elemText (.node SyntaxKind.NumberLit [.tok .Number ('0' :: 'x' :: ds)]) =
        '0' :: 'x' :: ds := by
      simp [elemText, elemsText]
    rw [he, parseF64_hex]

/-- C7 counterexample: `read_str("0xFF")` is `SyntaxError("Invalid number:
0xFF")`, not `Number(255)`. -/
theorem C7_hex_numberlit_rejected :
    readStr 32 ("0xFF".toList) =
      some (.error (.syntaxError ("Invalid number: 0xFF".toList))) := rfl

/-- C7 witness: the amended theorem discharged at the digit text `"42"` and
the hex text `"0xF"`. -/
theorem C7_numberlit_witness :
    readF 1 (.node .NumberLit [.tok .Number ['4', '2']]) =
        some (.ok (.number (digitsToNat ['4', '2']))) ∧
      readF 1 (.node .NumberLit [.tok .Number ['0', 'x', 'F']]) =
        some (.error (.syntaxError (("Invalid number: ".toList) ++ ['0', 'x', 'F']))) :=
  ⟨C7_numberlit_decimal_only.1 0 ['4', '2'] (by decide) (by decide),
   C7_numberlit_decimal_only.2 0 ['F']⟩

/-- C8: in the standard environment `(+)` evaluates to `0`, `(*)` evaluates to
`1`, and two-argument `(+ a b)` is commutative: both orders evaluate to the
same result (the builtin folds the exact rational sum, and addition on the
model of `f64` is commutative). -/
theorem C8_arith_identities_comm :
    evalStr 32 ("(+)".toList) 0 standardEnv = some (.ok (.number 0), standardEnv) ∧
    evalStr 32 ("(*)".toList) 0 standardEnv = some (.ok (.number 1), standardEnv) ∧
    ∀ (a b : ℚ) (fuel : Nat),
      evalF (fuel + 8) (.list [.symbol ("+".toList), .number a, .number b]) 0 standardEnv =
        evalF (fuel + 8) (.list [.symbol ("+".toList), .number b, .number a]) 0 standardEnv := by
  refine ⟨rfl, rfl, ?_⟩
  intro a b fuel
  have h1 : evalF (fuel + 8)
      (.list [.symbol ("+".toList), .number a, .number b]) 0 standardEnv =
      some (.ok (.number (0 + a + b)), standardEnv) := rfl
  have h2 : evalF (fuel + 8)
      (.list [.symbol ("+".toList), .number b, .number a]) 0 standardEnv =
      some (.ok (.number (0 + b + a)), standardEnv) := rfl
  have hc : (0 : ℚ) + a + b = 0 + b + a := by ring
  rw [h1, h2, hc]

/-- C9: a closure captures its defining environment by reference — after
`(setq x 1)`, `(setq f (fn [] x))`, `(setq x 2)` in the standard environment,
`(f)` returns `2` (the body reads the frame as it is at call time). -/
theorem C9_closure_by_reference :
    (evalSeqStr 64 [("(setq x 1)".toList), ("(setq f (fn [] x))".toList),
      ("(setq x 2)".toList), ("(f)".toList)] 0 standardEnv).map Prod.fst =
      some (.ok (.number 2)) := by
  with_unfolding_all rfl

/-- C10: evaluating a value that contains no list headed by the symbol `setq`
leaves every preexisting frame of the store — the environment and everything
reachable from it included — unchanged; only fresh call frames are written. -/
theorem C10_no_setq_preserves_frames (fuel : Nat) (v : Value) (env : Nat)
    (store : Store) (r : Except EvalError Value) (st' : Store)
    (hns : noSetqB v = true) (h : evalF fuel v env store = some (r, st')) :
    ∀ i < store.length, st'.get? i = store.get? i :=
  fun i hi => ((evalFns_sinv fuel).1 v env store r st' hns h).2 i hi

/-- C10 witness: calling the immediately-applied closure `((fn [] 5))` grows
the store by a call frame but leaves the standard environment's frame intact. -/
theorem C10_no_setq_witness :
    (standardEnv ++ [(⟨[], some 0⟩ : Frame)]).get? 0 = standardEnv.get? 0 :=
  C10_no_setq_preserves_frames 8
    (.list [.list [.symbol ("fn".toList), .vector [], .number 5]]) 0 standardEnv
    (.ok (.number 5)) (standardEnv ++ [⟨[], some 0⟩]) (by decide)
    (by with_unfolding_all rfl) 0 (by decide)

end Citrine
